import Mathlib

/-!
Verification of the OrganoidTracker lineage-graph core.

This file gives a shallow embedding, in Lean 4, of the parts of the
OrganoidTracker code base that the specification talks about:

* autotrack/core/positions.py — the Position value type, the per-time-point
  bucket (_PositionsAtTimePoint) and the PositionCollection store;
* autotrack/core/score.py — Score and Family;
* autotrack/linking_analysis/linking_markers.py — end / error markers;
* autotrack/linking_analysis/lineage_division_count.py — division counting;
* organoid_tracker/visualizer/link_and_position_editor.py — the undoable
  delete-links and move-position commands.

Machine floats of the Python source are embedded as rationals (ℚ), Python
ints as ℤ, and Python dictionaries as association lists probed with the
CPython lookup discipline (equal hash, then equal by the __eq__ method).
Methods that can raise are embedded as Except-valued functions; every
raise in the embedded methods happens before any mutation, so an error
result always stands for "exception raised, state unchanged".

Classes of the repository that are not among the given sources (Links,
LinkingTrack, Experiment, the organoid_tracker Position and the shape
hierarchy) are modelled from the specification; each such definition
carries a doc comment starting with "Modelled from the spec:".
-/

/-- Tolerance used by Position.__eq__ in autotrack/core/positions.py
(the literal 0.00001 on line 71). -/
def eqTol : ℚ := 1 / 100000

/-- Absolute value on ℚ, written with an explicit branch so that concrete
instances evaluate inside the kernel; it is Python abs on numbers. -/

def ratAbs (q : ℚ) : ℚ := if q < 0 then -q else q

/-- Modulus used by the CPython hash of an int (2^61 - 1). -/
def pyHashModulus : ℕ := 2305843009213693951

/-- Truncation toward zero, the behaviour of Python int() on a float. -/
def pyTrunc (q : ℚ) : ℤ := q.num.tdiv (q.den : ℤ)

/-- CPython hash of an int: reduce the absolute value modulo 2^61 - 1,
keep the sign, and map a result of -1 to -2. -/
def pyIntHash (n : ℤ) : ℤ :=
  let m : ℤ := (n.natAbs % pyHashModulus : ℕ)
  let h : ℤ := if n < 0 then -m else m
  if h = -1 then -2 else h

/-- Position from autotrack/core/positions.py: an immutable point with
rational x, y, z coordinates and an optional integer time point number. -/
structure Position where
  x : ℚ
  y : ℚ
  z : ℚ
  time_point_number : Option ℤ
deriving DecidableEq

/-- Position.__eq__ (positions.py lines 69-72), embedded verbatim: the
source compares abs(self.x - other.x) < 0.00001 twice (a slip — the
second comparison was clearly meant to read self.y - other.y, which the
y-including __hash__ on lines 64-67 confirms), then the z coordinates
within the tolerance, then the time point numbers exactly.  The y
coordinates are therefore never consulted. -/
def Position.py_eq (a b : Position) : Prop :=
  ratAbs (a.x - b.x) < eqTol ∧ ratAbs (a.x - b.x) < eqTol ∧
    ratAbs (a.z - b.z) < eqTol ∧ a.time_point_number = b.time_point_number

instance (a b : Position) : Decidable (Position.py_eq a b) := by
  unfold Position.py_eq
  infer_instance

/-- Position.__hash__ (positions.py lines 64-67): the xor of the CPython
hashes of the truncated coordinates, xored with the hash of the time
point number when one is present. -/
def Position.py_hash (p : Position) : ℤ :=
  match p.time_point_number with
  | none =>
      Int.xor (Int.xor (pyIntHash (pyTrunc p.x)) (pyIntHash (pyTrunc p.y)))
        (pyIntHash (pyTrunc p.z))
  | some t =>
      Int.xor
        (Int.xor (Int.xor (pyIntHash (pyTrunc p.x)) (pyIntHash (pyTrunc p.y)))
          (pyIntHash (pyTrunc p.z)))
        (pyIntHash t)

/-- CPython dictionary lookup discipline for Position keys: a probe hits a
stored key when the hashes agree and __eq__ holds. -/
def Position.dict_key_eq (probe stored : Position) : Prop :=
  probe.py_hash = stored.py_hash ∧ probe.py_eq stored

instance (a b : Position) : Decidable (Position.dict_key_eq a b) := by
  unfold Position.dict_key_eq
  infer_instance

/-- Modelled from the spec: the ParticleShape hierarchy of
autotrack/core/shape.py is not among the given sources; the store only
needs a distinguished Unknown shape next to arbitrary other shape values
("each optionally carrying a shape; Shape defaults to unknown if not
supplied"). -/
inductive ParticleShape where
  | unknownShape : ParticleShape
  | gaussianShape (idx : ℕ) : ParticleShape
deriving DecidableEq

/-- Contents of a _PositionsAtTimePoint: the Python dict from Position to
ParticleShape, embedded as an association list probed in insertion order
with the CPython key discipline. -/
abbrev Bucket := List (Position × ParticleShape)

/-- CPython dict lookup (self._positions.get(position)): the value of the
first stored key the probe hits. -/
def dictFind : Bucket → Position → Option ParticleShape
  | [], _ => none
  | (k, v) :: rest, p => if p.dict_key_eq k then some v else dictFind rest p

/-- CPython dict assignment (self._positions[position] = shape): replace
the value of the first key the probe hits, keeping the stored key,
otherwise append a fresh entry. -/
def dictSet : Bucket → Position → ParticleShape → Bucket
  | [], p, s => [(p, s)]
  | (k, v) :: rest, p, s =>
      if p.dict_key_eq k then (k, s) :: rest else (k, v) :: dictSet rest p s

/-- CPython dict deletion (del self._positions[position]): none encodes
the KeyError raised when the probe hits no stored key. -/
def dictDel : Bucket → Position → Option Bucket
  | [], _ => none
  | (k, v) :: rest, p =>
      if p.dict_key_eq k then some rest
      else (dictDel rest p).map (fun r => (k, v) :: r)

namespace PositionsAtTimePoint

/-- _PositionsAtTimePoint.get_shape (positions.py lines 120-125): the
stored shape, or UnknownShape when the position is not in the dict. -/
def get_shape (b : Bucket) (p : Position) : ParticleShape :=
  (dictFind b p).getD ParticleShape.unknownShape

/-- _PositionsAtTimePoint.add_position (positions.py lines 127-134): with
no shape supplied an already known entry is left untouched (a known shape
is never overwritten by an unknown one) and a missing entry is stored with
UnknownShape; with a shape supplied the entry is stored or replaced. -/
def add_position (b : Bucket) (p : Position) (shape? : Option ParticleShape) :
    Bucket :=
  match shape? with
  | none => if (dictFind b p).isSome then b else dictSet b p ParticleShape.unknownShape
  | some s => dictSet b p s

/-- _PositionsAtTimePoint.detach_position (positions.py lines 136-139):
plain dict deletion; none encodes the KeyError on a missing position. -/
def detach_position (b : Bucket) (p : Position) : Option Bucket :=
  dictDel b p

end PositionsAtTimePoint

/-- Message of the KeyError that a dict deletion raises on a missing key. -/
def keyErrorMsg : String := "KeyError"

/-- Message of the ValueError raised by PositionCollection.add and
PositionCollection.move_position on a missing time point (line 175 and
line 208 of positions.py). -/
def noTimePointMsg : String := "Position does not have a time point, so it cannot be added"

/-- Message of the ValueError raised by PositionCollection.move_position on
mismatching time points (line 204 of positions.py). -/
def timePointMismatchMsg : String := "Time points are different"

/-- PositionCollection from autotrack/core/positions.py: the per-time
buckets (a dict with exact integer keys) together with the incrementally
tracked minimum and maximum time point numbers. -/
structure PositionCollection where
  all_positions : List (ℤ × Bucket)
  min_time_point_number : Option ℤ
  max_time_point_number : Option ℤ
deriving DecidableEq

/-- Lookup in the time-point dict; integer keys compare exactly. -/
def tpFind : List (ℤ × Bucket) → ℤ → Option Bucket
  | [], _ => none
  | (k, b) :: rest, t => if t = k then some b else tpFind rest t

/-- Assignment in the time-point dict. -/
def tpSet : List (ℤ × Bucket) → ℤ → Bucket → List (ℤ × Bucket)
  | [], t, b => [(t, b)]
  | (k, b0) :: rest, t, b =>
      if t = k then (k, b) :: rest else (k, b0) :: tpSet rest t b

/-- Deletion in the time-point dict (only invoked on present keys). -/
def tpDel : List (ℤ × Bucket) → ℤ → List (ℤ × Bucket)
  | [], _ => []
  | (k, b) :: rest, t => if t = k then rest else (k, b) :: tpDel rest t

/-- Lookup self._all_positions.get(position.time_point_number()): a None
time point number never hits, since PositionCollection.add only ever
inserts integer keys. -/
def tpFindOpt (l : List (ℤ × Bucket)) : Option ℤ → Option Bucket
  | none => none
  | some t => tpFind l t

namespace PositionCollection

/-- PositionCollection() — the freshly constructed empty store. -/
def empty : PositionCollection := ⟨[], none, none⟩

/-- PositionCollection._update_min_max_time_points_for_addition
(positions.py lines 185-190). -/
def update_min_max_time_points_for_addition (c : PositionCollection) (t : ℤ) :
    PositionCollection :=
  let mn := match c.min_time_point_number with
    | none => some t
    | some m => if t < m then some t else some m
  let mx := match c.max_time_point_number with
    | none => some t
    | some m => if t > m then some t else some m
  ⟨c.all_positions, mn, mx⟩

/-- PositionCollection._update_min_max_time_points_for_removal
(positions.py lines 192-198): reset both bounds, then re-add every key of
the time-point dict. -/
def update_min_max_time_points_for_removal (c : PositionCollection) :
    PositionCollection :=
  c.all_positions.foldl (fun acc kv => acc.update_min_max_time_points_for_addition kv.1)
    ⟨c.all_positions, none, none⟩

/-- PositionCollection.add (positions.py lines 171-183): raises ValueError
on a missing time point (before any mutation), otherwise updates the
bounds and adds to the (possibly fresh) bucket of that time point. -/
def add (c : PositionCollection) (p : Position) (shape? : Option ParticleShape) :
    Except String PositionCollection :=
  match p.time_point_number with
  | none => Except.error noTimePointMsg
  | some t =>
      let c2 := c.update_min_max_time_points_for_addition t
      let b := (tpFind c2.all_positions t).getD []
      Except.ok ⟨tpSet c2.all_positions t (PositionsAtTimePoint.add_position b p shape?),
        c2.min_time_point_number, c2.max_time_point_number⟩

/-- PositionCollection.detach_position (positions.py lines 220-231): a
no-op when no bucket exists for the time point of the position, a
KeyError (raised before any mutation) when the bucket exists but does not
hold the position, and otherwise removal, dropping the bucket and
rescanning the bounds when the removal emptied it. -/
def detach_position (c : PositionCollection) (p : Position) :
    Except String PositionCollection :=
  match p.time_point_number with
  | none => Except.ok c
  | some t =>
      match tpFind c.all_positions t with
      | none => Except.ok c
      | some b =>
          match dictDel b p with
          | none => Except.error keyErrorMsg
          | some b2 =>
              if b2.isEmpty then
                Except.ok (update_min_max_time_points_for_removal
                  ⟨tpDel c.all_positions t, c.min_time_point_number,
                    c.max_time_point_number⟩)
              else
                Except.ok ⟨tpSet c.all_positions t b2, c.min_time_point_number,
                  c.max_time_point_number⟩

/-- PositionCollection.detach_all_for_time_point (positions.py lines
165-169). -/
def detach_all_for_time_point (c : PositionCollection) (t : ℤ) :
    PositionCollection :=
  if (tpFind c.all_positions t).isSome then
    update_min_max_time_points_for_removal
      ⟨tpDel c.all_positions t, c.min_time_point_number, c.max_time_point_number⟩
  else c

/-- PositionCollection.move_position (positions.py lines 200-218): raises
(before any mutation) when the time points differ or are missing, does
nothing when the bucket is missing or the old position is absent (the
KeyError of the inner detach is swallowed), and otherwise re-adds the new
position carrying the shape the old position had. -/
def move_position (c : PositionCollection) (old_position new_position : Position) :
    Except String PositionCollection :=
  if old_position.time_point_number ≠ new_position.time_point_number then
    Except.error timePointMismatchMsg
  else
    match old_position.time_point_number with
    | none => Except.error noTimePointMsg
    | some t =>
        match tpFind c.all_positions t with
        | none => Except.ok c
        | some b =>
            let old_shape := PositionsAtTimePoint.get_shape b old_position
            match dictDel b old_position with
            | none => Except.ok c
            | some b2 =>
                Except.ok ⟨tpSet c.all_positions t
                    (PositionsAtTimePoint.add_position b2 new_position (some old_shape)),
                  c.min_time_point_number, c.max_time_point_number⟩

/-- PositionCollection.get_shape (positions.py lines 241-245). -/
def get_shape (c : PositionCollection) (p : Position) : ParticleShape :=
  match tpFindOpt c.all_positions p.time_point_number with
  | none => ParticleShape.unknownShape
  | some b => PositionsAtTimePoint.get_shape b p

/-- PositionCollection.exists (positions.py lines 255-260); named
exists_pos because exists is reserved in Lean. -/
def exists_pos (c : PositionCollection) (p : Position) : Bool :=
  match tpFindOpt c.all_positions p.time_point_number with
  | none => false
  | some b => (dictFind b p).isSome

/-- PositionCollection.first_time_point_number (positions.py line 247). -/
def first_time_point_number (c : PositionCollection) : Option ℤ :=
  c.min_time_point_number

/-- PositionCollection.last_time_point_number (positions.py line 251). -/
def last_time_point_number (c : PositionCollection) : Option ℤ :=
  c.max_time_point_number

end PositionCollection

/-- Concrete position at the origin of time point 0, used as a stored
inhabitant in the concrete stores below. -/
def posA : Position := ⟨0, 0, 0, some 0⟩

/-- Concrete position at the same time point as posA but far away from it,
so that the dict probe of one never hits the other. -/
def posB : Position := ⟨10, 0, 0, some 0⟩

/-- Concrete position in a later time point. -/
def posC : Position := ⟨0, 0, 0, some 1⟩

/-- Bucket of time point 0 holding only posA (with unknown shape). -/
def bucketA : Bucket := [(posA, ParticleShape.unknownShape)]

/-- Store holding only posA, as PositionCollection.add builds it. -/
def storeA : PositionCollection := ⟨[(0, bucketA)], some 0, some 0⟩

/-- Bucket of time point 0 holding only posA with a known shape. -/
def bucketB : Bucket := [(posA, ParticleShape.gaussianShape 3)]

/-- Store holding only posA with a known shape. -/
def storeB : PositionCollection := ⟨[(0, bucketB)], some 0, some 0⟩

/-- Step function of the incremental minimum update of
_update_min_max_time_points_for_addition (the min half of lines 187-188):
take the new time point when no bound exists yet or when it is smaller. -/
def minStep (acc : Option ℤ) (t : ℤ) : Option ℤ :=
  match acc with
  | none => some t
  | some m => if t < m then some t else some m

/-- Step function of the incremental maximum update (lines 189-190). -/
def maxStep (acc : Option ℤ) (t : ℤ) : Option ℤ :=
  match acc with
  | none => some t
  | some m => if t > m then some t else some m

/-- Minimum of a list of time point numbers, as the fold of the
incremental update over the list. -/
def listMin (l : List ℤ) : Option ℤ := l.foldl minStep none

/-- Maximum of a list of time point numbers. -/
def listMax (l : List ℤ) : Option ℤ := l.foldl maxStep none

/-- Keys of the time-point dict: the time points of the existing (always
non-empty) buckets. -/
def keysOf (c : PositionCollection) : List ℤ := c.all_positions.map Prod.fst

/-- PositionCollection.__len__ (positions.py lines 262-267): total number
of stored positions, summed over the buckets. -/
def PositionCollection.len (c : PositionCollection) : ℕ :=
  c.all_positions.foldl (fun n kv => n + kv.2.length) 0

/-- One editing operation on a PositionCollection, as named by the claim:
add, detach_position, detach_all_for_time_point. -/
inductive StoreOp where
  | addPos (p : Position) (shape? : Option ParticleShape) : StoreOp
  | detachPos (p : Position) : StoreOp
  | detachAll (t : ℤ) : StoreOp

/-- Application of one operation.  A raising call leaves the Python store
observably unchanged (both add and detach_position raise before any
mutation), so an error result steps to the unchanged collection. -/
def stepOp (c : PositionCollection) : StoreOp → PositionCollection
  | .addPos p s =>
      match c.add p s with
      | Except.ok c2 => c2
      | Except.error _ => c
  | .detachPos p =>
      match c.detach_position p with
      | Except.ok c2 => c2
      | Except.error _ => c
  | .detachAll t => c.detach_all_for_time_point t

/-- Replay of a sequence of operations against the empty store. -/
def runOps (ops : List StoreOp) : PositionCollection :=
  ops.foldl stepOp PositionCollection.empty

/-- Invariant tying the incrementally tracked bounds to the bucket keys:
the stored min and max are the minimum and maximum over the keys, and
every bucket is non-empty. -/
def StoreInv (c : PositionCollection) : Prop :=
  c.min_time_point_number = listMin (keysOf c) ∧
  c.max_time_point_number = listMax (keysOf c) ∧
  ∀ kv ∈ c.all_positions, kv.2 ≠ ([] : Bucket)

/-- Score from autotrack/core/score.py: the underlying factor dict
(self.__dict__["scores"]), embedded as an association list with exact
string keys. -/
structure Score where
  scores : List (String × ℚ)
deriving DecidableEq

/-- Raw dict lookup self.__dict__["scores"][key] as an Option. -/
def Score.lookup (s : Score) (key : String) : Option ℚ :=
  (s.scores.find? (fun kv => kv.1 == key)).map Prod.snd

/-- Score.get (score.py lines 39-44): return the stored value, catching
the KeyError of a missing factor and returning 0.0 instead; the method is
total and never propagates an error. -/
def Score.get (s : Score) (key : String) : ℚ :=
  match s.lookup key with
  | some v => v
  | none => 0

/-- Score.total (score.py lines 28-32): sum of all factor values. -/
def Score.total (s : Score) : ℚ :=
  s.scores.foldl (fun acc kv => acc + kv.2) 0

/-- Family from autotrack/core/score.py (Particle is the earlier name of
Position; autotrack/core/particles.py is not among the sources, and the
spec says it is the same position value type).  The daughters field holds
the Python set literal of the two constructor arguments. -/
structure Family where
  mother : Position
  daughters : List Position
deriving DecidableEq

/-- Family.__init__ (score.py lines 70-73), embedded verbatim: no
validation happens — the daughters set is built from the two arguments
and, as CPython set insertion does, collapses to a single element when
the second daughter collides with the first under the set membership
discipline (equal hash and __eq__).  This contradicts the comment on
line 68 of score.py ("Size of two, ensured by constructor"). -/
def Family.init (mother daughter1 daughter2 : Position) : Family :=
  ⟨mother,
    if daughter2.dict_key_eq daughter1 then [daughter1] else [daughter1, daughter2]⟩

/-- Python values stored in the annotation layers: the value kinds the
spec names (string, number — int or float —, boolean). -/
inductive PyVal where
  | intVal (n : ℤ) : PyVal
  | floatVal (q : ℚ) : PyVal
  | strVal (s : String) : PyVal
  | boolVal (b : Bool) : PyVal
deriving DecidableEq

/-- Numeric view of a Python value; bool counts as 0/1, since Python bool
is an int subtype. -/
def PyVal.toNum : PyVal → Option ℚ
  | .intVal n => some (n : ℚ)
  | .floatVal q => some q
  | .boolVal b => some (if b then 1 else 0)
  | .strVal _ => none

/-- Python == on stored annotation values: numeric kinds compare by value,
strings by content, and a number never equals a string. -/
def PyVal.pyEq (a b : PyVal) : Bool :=
  match a, b with
  | .strVal s1, .strVal s2 => s1 == s2
  | .strVal _, _ => false
  | _, .strVal _ => false
  | a, b => a.toNum == b.toNum

/-- Modelled from the spec: the position-data side of the Links class
(autotrack/core/links.py is not among the sources).  PositionData maps a
(position, key) pair to a value; positions are probed with the CPython
dict discipline and keys with exact string equality. -/
abbrev PosData := List ((Position × String) × PyVal)

/-- Modelled from the spec: Links.get_position_data — lookup of the value
attached to a position under a key, None when absent. -/
def get_position_data : PosData → Position → String → Option PyVal
  | [], _, _ => none
  | (⟨k, n⟩, v) :: rest, p, key =>
      if p.dict_key_eq k ∧ n = key then some v else get_position_data rest p key

/-- Removal of the entry of a (position, key) pair, if any. -/
def pdRemove : PosData → Position → String → PosData
  | [], _, _ => []
  | (⟨k, n⟩, v) :: rest, p, key =>
      if p.dict_key_eq k ∧ n = key then rest else (⟨k, n⟩, v) :: pdRemove rest p key

/-- Replacement or insertion of the value of a (position, key) pair. -/
def pdSet : PosData → Position → String → PyVal → PosData
  | [], p, key, v => [(⟨p, key⟩, v)]
  | (⟨k, n⟩, v0) :: rest, p, key, v =>
      if p.dict_key_eq k ∧ n = key then (⟨k, n⟩, v) :: rest
      else (⟨k, n⟩, v0) :: pdSet rest p key v

/-- Modelled from the spec: Links.set_position_data — storing None removes
the key, any other value stores it. -/
def set_position_data (pd : PosData) (p : Position) (key : String) :
    Option PyVal → PosData
  | none => pdRemove pd p key
  | some v => pdSet pd p key v

/-- Key "ending" under which end-of-track markers are stored. -/
def endingKey : String := "ending"

/-- Key "error" under which error codes are stored. -/
def errorKey : String := "error"

/-- Key "suppressed_error" under which the suppressed code is stored. -/
def suppressedErrorKey : String := "suppressed_error"

/-- Message of the AttributeError that .upper() on a non-string raises. -/
def attributeErrorMsg : String := "AttributeError"

/-- Message of the ValueError that Error(value) raises on a bad code. -/
def valueErrorMsg : String := "ValueError"

/-- EndMarker from autotrack/linking_analysis/linking_markers.py (the two
members of the enum in the given source, lines 11-13). -/
inductive EndMarker where
  | DEAD : EndMarker
  | OUT_OF_VIEW : EndMarker
deriving DecidableEq

/-- Lookup EndMarker[name] by member name; none encodes the KeyError on an
unknown name. -/
def endMarkerFromName (s : String) : Option EndMarker :=
  if s = "DEAD" then some EndMarker.DEAD
  else if s = "OUT_OF_VIEW" then some EndMarker.OUT_OF_VIEW
  else none

/-- get_track_end_marker (linking_markers.py lines 29-35): read the
"ending" value; a missing value yields None, a valid marker name yields
the marker, anything else raises. -/
def get_track_end_marker (pd : PosData) (p : Position) :
    Except String (Option EndMarker) :=
  match get_position_data pd p endingKey with
  | none => Except.ok none
  | some (PyVal.strVal s) =>
      match endMarkerFromName s.toUpper with
      | some m => Except.ok (some m)
      | none => Except.error keyErrorMsg
  | some _ => Except.error attributeErrorMsg

/-- set_track_end_marker (linking_markers.py lines 38-43): None removes
the marker, otherwise the lower-cased member name is stored. -/
def set_track_end_marker (pd : PosData) (p : Position) :
    Option EndMarker → PosData
  | none => set_position_data pd p endingKey none
  | some EndMarker.DEAD =>
      set_position_data pd p endingKey (some (PyVal.strVal "dead"))
  | some EndMarker.OUT_OF_VIEW =>
      set_position_data pd p endingKey (some (PyVal.strVal "out_of_view"))

/-- get_error_marker (linking_markers.py lines 82-91): None when no error
is stored or when the suppressed code equals the stored code (Python ==,
where a missing suppressed value is None and never equals a code);
otherwise the Error enum member of the stored code (error on a non-code
value). -/
def get_error_marker (pd : PosData) (p : Position) : Except String (Option ℤ) :=
  match get_position_data pd p errorKey with
  | none => Except.ok none
  | some v =>
      if (match get_position_data pd p suppressedErrorKey with
          | none => false
          | some w => PyVal.pyEq w v) = true then Except.ok none
      else
        match v with
        | PyVal.intVal n => Except.ok (some n)
        | _ => Except.error valueErrorMsg

/-- suppress_error_marker (linking_markers.py lines 94-97): store the code
under "suppressed_error"; the "error" value itself is left in place. -/
def suppress_error_marker (pd : PosData) (p : Position) (n : ℤ) : PosData :=
  set_position_data pd p suppressedErrorKey (some (PyVal.intVal n))

/-- set_error_marker (linking_markers.py lines 106-111). -/
def set_error_marker (pd : PosData) (p : Position) : Option ℤ → PosData
  | none => set_position_data pd p errorKey none
  | some n => set_position_data pd p errorKey (some (PyVal.intVal n))

/-- Factor name used by the concrete Score below. -/
def fooKey : String := "foo"

/-- Factor name absent from the concrete Score below. -/
def barKey : String := "bar"

/-- Concrete score with the single factor foo = 4. -/
def scoreFoo : Score := ⟨[(fooKey, 4)]⟩

/-- Modelled from the spec: LinkingTrack (autotrack/core/links.py is not
among the sources).  A track exposes its minimum and maximum time point
numbers, its next tracks — held as indices into the track arena, the
visited-set identity the spec prescribes — and the position returned by
find_last_position, which carries the end-marker annotation. -/
structure LinkingTrack where
  min_time_point_number : ℤ
  max_time_point_number : ℤ
  next_tracks : List ℕ
  last_position : Position
deriving DecidableEq

/-- Worklist step of the descending-track walk: pop an index, skip it when
already visited or out of range, otherwise record it and push its next
tracks.  The fuel only bounds the number of steps. -/
def descendAux (g : List LinkingTrack) : ℕ → List ℕ → List ℕ → List ℕ
  | _, [], visited => visited.reverse
  | 0, _, visited => visited.reverse
  | fuel + 1, i :: stack, visited =>
      if i ∈ visited then descendAux g fuel stack visited
      else
        match g.get? i with
        | none => descendAux g fuel stack visited
        | some tr => descendAux g fuel (tr.next_tracks ++ stack) (i :: visited)

/-- Fuel amply covering every pop the walk can perform: one per initial
index plus one per next-track edge per visit of each track. -/
def descendFuel (g : List LinkingTrack) : ℕ :=
  (g.length + 1) * (g.foldl (fun n tr => n + tr.next_tracks.length + 1) 1)

/-- Modelled from the spec: find_all_descending_tracks(include_self=True),
the depth-first walk over next-track edges starting at the given track,
terminating on merges by tracking visited tracks by arena index. -/
def find_all_descending_tracks (g : List LinkingTrack) (start : ℕ) :
    List LinkingTrack :=
  (descendAux g (descendFuel g) [start] []).filterMap (fun i => g.get? i)

/-- Track end predicate of the None branch of
get_division_count_in_lineage: no next tracks, no DEAD marker, and the
track ends before the window end (the marker is only consulted when the
track has no next tracks, mirroring the short-circuit on lines 23-25). -/
def unexplainedEnd (pd : PosData) (last : ℤ) (tr : LinkingTrack) : Bool :=
  tr.next_tracks.isEmpty &&
    !(match get_track_end_marker pd tr.last_position with
      | Except.ok (some EndMarker.DEAD) => true
      | _ => false) &&
    decide (tr.max_time_point_number < last)

/-- Division predicate of the counting branch (line 27): the track ends
before the window end and has more than one next track. -/
def isDivision (last : ℤ) (tr : LinkingTrack) : Bool :=
  decide (tr.max_time_point_number < last) && decide (tr.next_tracks.length > 1)

/-- Loop body of get_division_count_in_lineage
(lineage_division_count.py lines 18-29), folded over the descending
tracks with the running division count. -/
def divisionCountLoop (pd : PosData) (last : ℤ) :
    List LinkingTrack → ℕ → Except String (Option ℕ)
  | [], acc => Except.ok (some acc)
  | tr :: rest, acc =>
      if tr.min_time_point_number > last then divisionCountLoop pd last rest acc
      else
        if tr.next_tracks.isEmpty then
          match get_track_end_marker pd tr.last_position with
          | Except.error e => Except.error e
          | Except.ok m =>
              if m ≠ some EndMarker.DEAD ∧ tr.max_time_point_number < last then
                Except.ok none
              else divisionCountLoop pd last rest acc
        else
          if tr.max_time_point_number < last ∧ tr.next_tracks.length > 1 then
            divisionCountLoop pd last rest (acc + 1)
          else divisionCountLoop pd last rest acc

/-- get_division_count_in_lineage (lineage_division_count.py lines 8-29):
walk the descending tracks of the starting track (including itself) and
fold the counting loop with count 0. -/
def get_division_count_in_lineage (pd : PosData) (g : List LinkingTrack)
    (start : ℕ) (last : ℤ) : Except String (Option ℕ) :=
  divisionCountLoop pd last (find_all_descending_tracks g start) 0

/-- Concrete one-track lineage: a single track from time 0 to time 5 with
no next tracks and no end marker. -/
def trackW : LinkingTrack := ⟨0, 5, [], posA⟩

/-- Concrete arena holding only trackW. -/
def graphW : List LinkingTrack := [trackW]

/-- Modelled from the spec: the organoid_tracker Position
(organoid_tracker/core/position.py is not among the sources) — an
immutable point with coordinates and a time point number, used as a plain
value type (equality by coordinates and time) by the editor commands. -/
structure OTPosition where
  x : ℚ
  y : ℚ
  z : ℚ
  time_point_number : ℤ
deriving DecidableEq

/-- Modelled from the spec: the experiment state the editor commands
mutate — the position store (position → optional shape), the undirected
link graph and the link-data annotation layer, each as a total function
(finite states are built by updates on the empty experiment). -/
structure Experiment where
  positions : OTPosition → Option ParticleShape
  links : OTPosition → OTPosition → Bool
  link_data : OTPosition → OTPosition → String → Option PyVal

/-- Unordered-edge test: the point (p, q) is the edge between a and b in
either orientation. -/
def edgeMatches (a b p q : OTPosition) : Prop :=
  (p = a ∧ q = b) ∨ (p = b ∧ q = a)

instance (a b p q : OTPosition) : Decidable (edgeMatches a b p q) := by
  unfold edgeMatches
  infer_instance

/-- The experiment with no positions, no links and no annotations. -/
def expEmpty : Experiment :=
  ⟨fun _ => none, fun _ _ => false, fun _ _ _ => none⟩

/-- Modelled from the spec: Links.add_link — store the undirected edge (in
both orientations, so lookups in either direction hit). -/
def add_link (e : Experiment) (a b : OTPosition) : Experiment :=
  { e with links := fun p q => if edgeMatches a b p q then true else e.links p q }

/-- Modelled from the spec: Links.remove_link — fails (KeyError-style)
when the link is absent, otherwise removes the edge and prunes every
annotation attached to it ("both layers are pruned when a position or
link is removed"). -/
def remove_link (e : Experiment) (a b : OTPosition) : Except String Experiment :=
  if e.links a b then
    Except.ok
      { e with
        links := fun p q => if edgeMatches a b p q then false else e.links p q,
        link_data := fun p q k => if edgeMatches a b p q then none else e.link_data p q k }
  else Except.error keyErrorMsg

/-- Modelled from the spec: LinkData.get_link_data. -/
def get_link_data (e : Experiment) (a b : OTPosition) (key : String) : Option PyVal :=
  e.link_data a b key

/-- Modelled from the spec: LinkData.set_link_data — None removes the
value; the value is stored under both orientations of the pair. -/
def set_link_data (e : Experiment) (a b : OTPosition) (key : String)
    (v? : Option PyVal) : Experiment :=
  { e with link_data := fun p q k =>
      if edgeMatches a b p q ∧ k = key then v? else e.link_data p q k }

/-- Modelled from the spec: Experiment.move_position — "moving a position
is implemented as remove-old/insert-new"; the shape travels with the
position, and the incident links and their annotations are re-keyed from
the old to the new position.  (The editor only moves positions that are
present, onto destinations it has just created.) -/
def Experiment.move_position (e : Experiment) (a b : OTPosition) : Experiment :=
  { positions := fun p =>
      if p = b then e.positions a else if p = a then none else e.positions p,
    links := fun p q =>
      if p = a ∨ q = a then false
      else e.links (if p = b then a else p) (if q = b then a else q),
    link_data := fun p q k =>
      if p = a ∨ q = a then none
      else e.link_data (if p = b then a else p) (if q = b then a else q) k }

/-- Key "link_probability" cleared by the move command. -/
def lpKey : String := "link_probability"

/-- Pairs captured by _DeleteLinksAction.__init__
(link_and_position_editor.py lines 67-71): each link together with the
dict of all its annotations, taken from the state the action is created
on. -/
structure DeleteLinksAction where
  position_pairs : List (OTPosition × OTPosition × List (String × PyVal))

/-- _DeleteLinksAction.do (lines 73-76): remove every captured link; the
first missing link raises out of the loop. -/
def deleteLinksDo :
    List (OTPosition × OTPosition × List (String × PyVal)) → Experiment →
      Except String Experiment
  | [], e => Except.ok e
  | (a, b, _) :: rest, e =>
      match remove_link e a b with
      | Except.error msg => Except.error msg
      | Except.ok e2 => deleteLinksDo rest e2

/-- _DeleteLinksAction.undo (lines 78-83): re-add every captured link and
restore its captured annotations one by one. -/
def deleteLinksUndo :
    List (OTPosition × OTPosition × List (String × PyVal)) → Experiment →
      Experiment
  | [], e => e
  | (a, b, data) :: rest, e =>
      deleteLinksUndo rest
        (data.foldl (fun ex kv => set_link_data ex a b kv.1 (some kv.2))
          (add_link e a b))

/-- _MovePositionAction (link_and_position_editor.py lines 134-152): the
two positions plus the link-probability snapshot of every link of the old
position, captured at construction time. -/
structure MovePositionAction where
  old_position : OTPosition
  new_position : OTPosition
  old_link_probabilities : List (OTPosition × Option PyVal)

/-- _MovePositionAction.__init__ (lines 143-152): raises ValueError when
the time points differ, otherwise snapshots the link probability of every
link of the old position (the loop over find_links_of is supplied as the
finite enumeration of the linked positions). -/
def mkMovePositionAction (e : Experiment) (old_position new_position : OTPosition)
    (incident : List OTPosition) : Except String MovePositionAction :=
  if old_position.time_point_number ≠ new_position.time_point_number then
    Except.error valueErrorMsg
  else
    Except.ok ⟨old_position, new_position,
      incident.map (fun q => (q, get_link_data e old_position q lpKey))⟩

/-- Dictionary get on the snapshot (self.old_link_probabilities.get(link)):
None when the link was not snapshotted. -/
def probLookup (l : List (OTPosition × Option PyVal)) (q : OTPosition) :
    Option PyVal :=
  match l.find? (fun kv => kv.1 == q) with
  | some kv => kv.2
  | none => none

/-- _MovePositionAction.do (lines 154-163): move the position, then clear
the link probability of every link of the new position (the loop over
find_links_of(new) aggregated into one update). -/
def MovePositionAction.do_cmd (act : MovePositionAction) (e : Experiment) :
    Experiment :=
  let e2 := e.move_position act.old_position act.new_position
  { e2 with link_data := fun p q k =>
      if k = lpKey ∧ ((p = act.new_position ∧ e2.links act.new_position q = true)
          ∨ (q = act.new_position ∧ e2.links act.new_position p = true)) then none
      else e2.link_data p q k }

/-- _MovePositionAction.undo (lines 165-170): move the position back, then
restore the snapshotted link probability on every link of the old
position (dict.get semantics: a link without a snapshot gets None). -/
def MovePositionAction.undo_cmd (act : MovePositionAction) (e : Experiment) :
    Experiment :=
  let e2 := e.move_position act.new_position act.old_position
  { e2 with link_data := fun p q k =>
      if k = lpKey ∧ p = act.old_position ∧ e2.links act.old_position q = true then
        probLookup act.old_link_probabilities q
      else if k = lpKey ∧ q = act.old_position ∧ e2.links act.old_position p = true then
        probLookup act.old_link_probabilities p
      else e2.link_data p q k }

/-- Well-formed experiment: the undirected link graph and the link-data
layer are orientation-symmetric, as the storing operations keep them. -/
def Experiment.wf (e : Experiment) : Prop :=
  (∀ p q, e.links p q = e.links q p) ∧
  (∀ p q k, e.link_data p q k = e.link_data q p k)

/-- Concrete editor position at the origin, time 0. -/
def otA : OTPosition := ⟨0, 0, 0, 0⟩

/-- Concrete editor position next to otA at the same time point. -/
def otB : OTPosition := ⟨1, 0, 0, 0⟩

/-- Concrete editor position below otA at the next time point. -/
def otD : OTPosition := ⟨0, 0, 0, 1⟩

/-- Experiment holding the two positions otA and otB (no links, no
annotations). -/
def eCex : Experiment :=
  ⟨fun p => if p = otA then some (ParticleShape.gaussianShape 1)
    else if p = otB then some (ParticleShape.gaussianShape 2) else none,
    fun _ _ => false, fun _ _ _ => none⟩

/-- The move action the editor builds on eCex for moving otA onto otB. -/
def actCex : MovePositionAction := ⟨otA, otB, []⟩

/-- Last-occurrence lookup in a captured annotation list; the dict built
by the action has unique keys, and the restoring fold makes the last
occurrence of a key win. -/
def lastLookup : List (String × PyVal) → String → Option PyVal
  | [], _ => none
  | (k0, v) :: rest, k =>
      match lastLookup rest k with
      | some v2 => some v2
      | none => if k0 = k then some v else none

/-- Some captured pair of the action matches the probed point. -/
def pairsMatch (pairs : List (OTPosition × OTPosition × List (String × PyVal)))
    (p q : OTPosition) : Prop :=
  ∃ pr ∈ pairs, edgeMatches pr.1 pr.2.1 p q

instance (pairs : List (OTPosition × OTPosition × List (String × PyVal)))
    (p q : OTPosition) : Decidable (pairsMatch pairs p q) := by
  unfold pairsMatch
  infer_instance

/-- Experiment with the single link otA–otD carrying a link probability. -/
def expW : Experiment :=
  set_link_data (add_link expEmpty otA otD) otA otD lpKey (some (PyVal.floatVal 1))

/-- Pairs the delete-links action captures on expW. -/
def pairsW : List (OTPosition × OTPosition × List (String × PyVal)) :=
  [(otA, otD, [(lpKey, PyVal.floatVal 1)])]

/-- State after the delete-links action ran on expW. -/
def expW2 : Experiment :=
  match deleteLinksDo pairsW expW with
  | Except.ok e2 => e2
  | Except.error _ => expW

/-- Experiment holding only the position otA, with no links and no
annotations; the move witness state. -/
def expM : Experiment :=
  ⟨fun p => if p = otA then some (ParticleShape.gaussianShape 1) else none,
    fun _ _ => false, fun _ _ _ => none⟩

theorem ratAbs_self_sub (q : ℚ) : ratAbs (q - q) = 0 := by
  simp [ratAbs]

theorem Position.py_eq_refl (p : Position) : p.py_eq p := by
  unfold Position.py_eq
  have h : ratAbs (p.x - p.x) < eqTol := by
    rw [ratAbs_self_sub]
    norm_num [eqTol]
  have hz : ratAbs (p.z - p.z) < eqTol := by
    rw [ratAbs_self_sub]
    norm_num [eqTol]
  exact ⟨h, h, hz, rfl⟩

theorem Position.dict_key_eq_refl (p : Position) : p.dict_key_eq p :=
  ⟨rfl, p.py_eq_refl⟩

/-- C1: the claim states that two Position values are equal exactly when
their rounded coordinates — including y — and time indices agree, so that
positions differing only in y compare unequal.  The code violates this:
Position.__eq__ never consults y (it tests the x difference twice), so the
positions (0, 0, 0) and (0, 1, 0) at time 0 compare equal even though
their y coordinates — and, via __hash__, their hashes — differ. -/
theorem C1_position_eq_ignores_y :
    Position.py_eq ⟨0, 0, 0, some 0⟩ ⟨0, 1, 0, some 0⟩ ∧
    (⟨0, 0, 0, some 0⟩ : Position).y ≠ (⟨0, 1, 0, some 0⟩ : Position).y ∧
    Position.py_hash ⟨0, 0, 0, some 0⟩ ≠ Position.py_hash ⟨0, 1, 0, some 0⟩ := by
  refine ⟨?_, by norm_num, ?_⟩
  · unfold Position.py_eq
    norm_num [ratAbs, eqTol]
  · show Position.py_hash ⟨0, 0, 0, some 0⟩ ≠ Position.py_hash ⟨0, 1, 0, some 0⟩
    norm_num [Position.py_hash, pyTrunc, pyIntHash, pyHashModulus]
    decide

theorem dictFind_dictSet_self (b : Bucket) (p : Position) (s : ParticleShape) :
    dictFind (dictSet b p s) p = some s := by
  induction b with
  | nil => simp [dictSet, dictFind, p.dict_key_eq_refl]
  | cons kv rest ih =>
      obtain ⟨k, v⟩ := kv
      by_cases h : p.dict_key_eq k
      · simp [dictSet, dictFind, h]
      · simp [dictSet, dictFind, h, ih]

theorem dictDel_eq_none_iff (b : Bucket) (p : Position) :
    dictDel b p = none ↔ dictFind b p = none := by
  induction b with
  | nil => simp [dictDel, dictFind]
  | cons kv rest ih =>
      obtain ⟨k, v⟩ := kv
      by_cases h : p.dict_key_eq k
      · simp [dictDel, dictFind, h]
      · simp [dictDel, dictFind, h, ih]

theorem tpFind_tpSet_self (l : List (ℤ × Bucket)) (t : ℤ) (b : Bucket) :
    tpFind (tpSet l t b) t = some b := by
  induction l with
  | nil => simp [tpSet, tpFind]
  | cons kv rest ih =>
      obtain ⟨k, b0⟩ := kv
      by_cases h : t = k
      · simp [tpSet, tpFind, h]
      · simp [tpSet, tpFind, h, ih]

theorem posB_not_key_posA : ¬ posB.dict_key_eq posA := by
  intro h
  have hx := h.2.1
  simp only [posA, posB] at hx
  norm_num [ratAbs, eqTol] at hx

/-- C4: the claim says detaching an absent position is always a no-op,
even when other positions exist at its time point.  The code refutes this:
in a store whose time point 0 holds posA, detaching the absent posB finds
the bucket and raises KeyError instead of doing nothing. -/
theorem C4_counterexample :
    storeA.exists_pos posB = false ∧
    tpFind storeA.all_positions 0 = some bucketA ∧
    storeA.detach_position posB = Except.error keyErrorMsg := by
  have hk : ¬ (⟨10, 0, 0, some 0⟩ : Position).dict_key_eq posA := posB_not_key_posA
  refine ⟨?_, ?_, ?_⟩
  · simp [PositionCollection.exists_pos, storeA, posB, tpFindOpt, tpFind, bucketA,
      dictFind, hk]
  · simp [storeA, tpFind]
  · simp [PositionCollection.detach_position, storeA, posB, tpFind, bucketA,
      dictDel, hk]

/-- C4 (amended): detach_position is a no-op exactly when no bucket exists
for the time point of the position (in particular when the store is empty
there, or the position has no time point); when the bucket exists but does
not hold the position, the call raises KeyError — before any mutation —
rather than being a no-op. -/
theorem C4_detach_absent_amended (c : PositionCollection) (p : Position) :
    (tpFindOpt c.all_positions p.time_point_number = none →
      c.detach_position p = Except.ok c) ∧
    (∀ b, tpFindOpt c.all_positions p.time_point_number = some b →
      dictFind b p = none →
      c.detach_position p = Except.error keyErrorMsg) := by
  constructor
  · intro h
    unfold PositionCollection.detach_position
    cases htp : p.time_point_number with
    | none => rfl
    | some t =>
        rw [htp] at h
        simp only [tpFindOpt] at h
        simp [h]
  · intro b hb hf
    unfold PositionCollection.detach_position
    cases htp : p.time_point_number with
    | none => rw [htp] at hb; simp [tpFindOpt] at hb
    | some t =>
        rw [htp] at hb
        simp only [tpFindOpt] at hb
        have hdel : dictDel b p = none := (dictDel_eq_none_iff b p).mpr hf
        simp [hb, hdel]

/-- C4 witness: detaching posB from the empty store is a no-op; detaching
the absent posB from the store whose bucket holds posA raises KeyError. -/
theorem C4_witness :
    PositionCollection.empty.detach_position posB = Except.ok PositionCollection.empty ∧
    storeA.detach_position posB = Except.error keyErrorMsg := by
  constructor
  · exact (C4_detach_absent_amended PositionCollection.empty posB).1
      (by simp [PositionCollection.empty, tpFindOpt, tpFind, posB])
  · exact (C4_detach_absent_amended storeA posB).2 bucketA
      (by simp [storeA, tpFindOpt, tpFind, posB])
      (by simp [bucketA, dictFind, posB_not_key_posA])

/-- C6: move_position fails synchronously — before any mutation — with a
ValueError whenever the two time point numbers differ or are missing; when
they agree and the old position is present, the move succeeds and the new
position carries exactly the shape the old position had. -/
theorem C6_move_position_spec (c : PositionCollection)
    (old_position new_position : Position) :
    (old_position.time_point_number ≠ new_position.time_point_number ∨
        old_position.time_point_number = none →
      ∃ msg, c.move_position old_position new_position = Except.error msg) ∧
    (∀ t b, old_position.time_point_number = some t →
      new_position.time_point_number = some t →
      tpFind c.all_positions t = some b →
      (dictFind b old_position).isSome →
      (c.move_position old_position new_position).map
          (fun c2 => c2.get_shape new_position) =
        Except.ok (c.get_shape old_position)) := by
  constructor
  · intro h
    unfold PositionCollection.move_position
    by_cases hne : old_position.time_point_number ≠ new_position.time_point_number
    · exact ⟨timePointMismatchMsg, by simp [hne]⟩
    · push_neg at hne
      have hnone : old_position.time_point_number = none := by
        rcases h with h1 | h2
        · exact absurd hne h1
        · exact h2
      have hnone2 : new_position.time_point_number = none := hne ▸ hnone
      exact ⟨noTimePointMsg, by simp [hne, hnone2]⟩
  · intro t b hot hnt hfind hsome
    have heq : old_position.time_point_number = new_position.time_point_number := by
      rw [hot, hnt]
    have hdel : dictDel b old_position ≠ none := by
      rw [Ne, dictDel_eq_none_iff]
      intro hcon
      rw [hcon] at hsome
      simp at hsome
    obtain ⟨b2, hb2⟩ : ∃ b2, dictDel b old_position = some b2 := by
      cases hd : dictDel b old_position with
      | none => exact absurd hd hdel
      | some b2 => exact ⟨b2, rfl⟩
    unfold PositionCollection.move_position
    simp only [heq, ne_eq, not_true_eq_false, if_false, hot, hfind, hb2, Except.map]
    unfold PositionCollection.get_shape
    rw [hnt, hot]
    simp only [tpFindOpt, tpFind_tpSet_self, hfind]
    unfold PositionsAtTimePoint.add_position
    simp only [PositionsAtTimePoint.get_shape, dictFind_dictSet_self, Option.getD_some]
    rw [hb2]
    simp only [tpFind_tpSet_self, dictFind_dictSet_self, Option.getD_some]

/-- C6 witness: moving posA to the later posC fails with a ValueError, and
moving posA (present in storeA) to posB at the same time point succeeds,
the shape travelling with it. -/
theorem C6_witness :
    (∃ msg, PositionCollection.empty.move_position posA posC = Except.error msg) ∧
    (storeA.move_position posA posB).map (fun c2 => c2.get_shape posB) =
      Except.ok (storeA.get_shape posA) := by
  constructor
  · exact (C6_move_position_spec PositionCollection.empty posA posC).1
      (Or.inl (by simp [posA, posC]))
  · exact (C6_move_position_spec storeA posA posB).2 0 bucketA rfl rfl
      (by simp [storeA, tpFind])
      (by simp [bucketA, dictFind, Position.dict_key_eq_refl])

/-- C7: adding an already present position without a shape argument leaves
the stored shape untouched (a known shape is never downgraded to
Unknown), while adding with an explicit shape replaces the stored one. -/
theorem C7_add_never_downgrades (c : PositionCollection) (p : Position)
    (t : ℤ) (b : Bucket) (s0 s1 : ParticleShape) :
    (p.time_point_number = some t →
      tpFind c.all_positions t = some b →
      dictFind b p = some s0 →
      (c.add p none).map (fun c2 => c2.get_shape p) = Except.ok s0) ∧
    (p.time_point_number = some t →
      (c.add p (some s1)).map (fun c2 => c2.get_shape p) = Except.ok s1) := by
  constructor
  · intro htp hfind hstored
    unfold PositionCollection.add PositionCollection.get_shape
    rw [htp]
    simp only [PositionCollection.update_min_max_time_points_for_addition, hfind,
      Option.getD_some, tpFindOpt, PositionsAtTimePoint.add_position, hstored,
      Option.isSome_some, if_true, tpFind_tpSet_self, Except.map,
      PositionsAtTimePoint.get_shape, Option.getD_some]
  · intro htp
    unfold PositionCollection.add PositionCollection.get_shape
    rw [htp]
    simp only [PositionCollection.update_min_max_time_points_for_addition, tpFindOpt,
      PositionsAtTimePoint.add_position, tpFind_tpSet_self, Except.map,
      PositionsAtTimePoint.get_shape, dictFind_dictSet_self, Option.getD_some]

/-- C7 witness: re-adding posA (stored with a known shape in storeB)
without a shape keeps that shape, and adding it with an explicit shape
replaces it. -/
theorem C7_witness :
    (storeB.add posA none).map (fun c2 => c2.get_shape posA) =
      Except.ok (ParticleShape.gaussianShape 3) ∧
    (storeB.add posA (some (ParticleShape.gaussianShape 7))).map
        (fun c2 => c2.get_shape posA) =
      Except.ok (ParticleShape.gaussianShape 7) := by
  constructor
  · exact (C7_add_never_downgrades storeB posA 0 bucketB
        (ParticleShape.gaussianShape 3) (ParticleShape.gaussianShape 7)).1 rfl
      (by simp [storeB, tpFind])
      (by simp [bucketB, dictFind, Position.dict_key_eq_refl])
  · exact (C7_add_never_downgrades storeB posA 0 bucketB
        (ParticleShape.gaussianShape 3) (ParticleShape.gaussianShape 7)).2 rfl

theorem upd_addition_fields (c : PositionCollection) (t : ℤ) :
    c.update_min_max_time_points_for_addition t =
      ⟨c.all_positions, minStep c.min_time_point_number t,
        maxStep c.max_time_point_number t⟩ := rfl

theorem minStep_min (m t : ℤ) : minStep (some m) t = some (min m t) := by
  by_cases h : t < m
  · simp [minStep, h, min_def]
    omega
  · simp [minStep, h, min_def]
    omega

theorem maxStep_max (m t : ℤ) : maxStep (some m) t = some (max m t) := by
  by_cases h : t > m
  · simp [maxStep, h, max_def]
    omega
  · simp [maxStep, h, max_def]
    omega

theorem foldl_minStep_some (l : List ℤ) (m : ℤ) :
    l.foldl minStep (some m) = some (l.foldl min m) := by
  induction l generalizing m with
  | nil => rfl
  | cons x xs ih => simp [List.foldl_cons, minStep_min, ih]

theorem foldl_maxStep_some (l : List ℤ) (m : ℤ) :
    l.foldl maxStep (some m) = some (l.foldl max m) := by
  induction l generalizing m with
  | nil => rfl
  | cons x xs ih => simp [List.foldl_cons, maxStep_max, ih]

theorem foldl_min_le (l : List ℤ) (m : ℤ) :
    l.foldl min m ≤ m ∧ ∀ t ∈ l, l.foldl min m ≤ t := by
  induction l generalizing m with
  | nil => simp
  | cons x xs ih =>
      rw [List.foldl_cons]
      obtain ⟨h1, h2⟩ := ih (min m x)
      refine ⟨le_trans h1 (min_le_left m x), ?_⟩
      intro t ht
      rcases List.mem_cons.mp ht with h | h
      · subst h
        exact le_trans h1 (min_le_right m t)
      · exact h2 t h

theorem foldl_max_ge (l : List ℤ) (m : ℤ) :
    m ≤ l.foldl max m ∧ ∀ t ∈ l, t ≤ l.foldl max m := by
  induction l generalizing m with
  | nil => simp
  | cons x xs ih =>
      rw [List.foldl_cons]
      obtain ⟨h1, h2⟩ := ih (max m x)
      refine ⟨le_trans (le_max_left m x) h1, ?_⟩
      intro t ht
      rcases List.mem_cons.mp ht with h | h
      · subst h
        exact le_trans (le_max_right m t) h1
      · exact h2 t h

theorem listMin_append_single (l : List ℤ) (t : ℤ) :
    listMin (l ++ [t]) = minStep (listMin l) t := by
  simp [listMin, List.foldl_append]

theorem listMax_append_single (l : List ℤ) (t : ℤ) :
    listMax (l ++ [t]) = maxStep (listMax l) t := by
  simp [listMax, List.foldl_append]

theorem minStep_mem (l : List ℤ) (t : ℤ) (h : t ∈ l) :
    minStep (listMin l) t = listMin l := by
  cases l with
  | nil => simp at h
  | cons x xs =>
      rw [listMin, List.foldl_cons]
      show minStep (xs.foldl minStep (minStep none x)) t = _
      rw [show minStep none x = some x from rfl, foldl_minStep_some]
      have hle : xs.foldl min x ≤ t := by
        rcases List.mem_cons.mp h with h1 | h1
        · exact h1 ▸ (foldl_min_le xs x).1
        · exact (foldl_min_le xs x).2 t h1
      rw [minStep_min, min_eq_left hle]

theorem maxStep_mem (l : List ℤ) (t : ℤ) (h : t ∈ l) :
    maxStep (listMax l) t = listMax l := by
  cases l with
  | nil => simp at h
  | cons x xs =>
      rw [listMax, List.foldl_cons]
      show maxStep (xs.foldl maxStep (maxStep none x)) t = _
      rw [show maxStep none x = some x from rfl, foldl_maxStep_some]
      have hle : t ≤ xs.foldl max x := by
        rcases List.mem_cons.mp h with h1 | h1
        · exact h1 ▸ (foldl_max_ge xs x).1
        · exact (foldl_max_ge xs x).2 t h1
      rw [maxStep_max, max_eq_left hle]

theorem listMin_eq_none_iff (l : List ℤ) : listMin l = none ↔ l = [] := by
  cases l with
  | nil => simp [listMin]
  | cons x xs =>
      rw [listMin, List.foldl_cons]
      show xs.foldl minStep (minStep none x) = none ↔ _
      rw [show minStep none x = some x from rfl, foldl_minStep_some]
      simp

theorem tpFind_some_mem (l : List (ℤ × Bucket)) (t : ℤ) (b : Bucket)
    (h : tpFind l t = some b) : t ∈ l.map Prod.fst := by
  induction l with
  | nil => simp [tpFind] at h
  | cons kv rest ih =>
      obtain ⟨k, b0⟩ := kv
      by_cases hk : t = k
      · simp [hk]
      · rw [tpFind, if_neg hk] at h
        simp [ih h]

theorem tpSet_keys_found (l : List (ℤ × Bucket)) (t : ℤ) (b b0 : Bucket)
    (h : tpFind l t = some b0) :
    (tpSet l t b).map Prod.fst = l.map Prod.fst := by
  induction l with
  | nil => simp [tpFind] at h
  | cons kv rest ih =>
      obtain ⟨k, b1⟩ := kv
      by_cases hk : t = k
      · simp [tpSet, hk]
      · rw [tpFind, if_neg hk] at h
        simp [tpSet, hk, ih h]

theorem tpSet_keys_missing (l : List (ℤ × Bucket)) (t : ℤ) (b : Bucket)
    (h : tpFind l t = none) :
    (tpSet l t b).map Prod.fst = l.map Prod.fst ++ [t] := by
  induction l with
  | nil => simp [tpSet]
  | cons kv rest ih =>
      obtain ⟨k, b1⟩ := kv
      by_cases hk : t = k
      · rw [tpFind, if_pos hk] at h
        exact absurd h (by simp)
      · rw [tpFind, if_neg hk] at h
        simp [tpSet, hk, ih h]

theorem tpSet_mem (l : List (ℤ × Bucket)) (t : ℤ) (b : Bucket) (kv : ℤ × Bucket)
    (h : kv ∈ tpSet l t b) : kv.2 = b ∨ kv ∈ l := by
  induction l with
  | nil =>
      simp [tpSet] at h
      simp [h]
  | cons kv0 rest ih =>
      obtain ⟨k, b1⟩ := kv0
      by_cases hk : t = k
      · rw [tpSet, if_pos hk] at h
        rcases List.mem_cons.mp h with h1 | h1
        · simp [h1]
        · exact Or.inr (List.mem_cons_of_mem _ h1)
      · rw [tpSet, if_neg hk] at h
        rcases List.mem_cons.mp h with h1 | h1
        · exact Or.inr (h1 ▸ List.mem_cons_self _ _)
        · rcases ih h1 with h2 | h2
          · exact Or.inl h2
          · exact Or.inr (List.mem_cons_of_mem _ h2)

theorem tpDel_subset (l : List (ℤ × Bucket)) (t : ℤ) (kv : ℤ × Bucket)
    (h : kv ∈ tpDel l t) : kv ∈ l := by
  induction l with
  | nil => simp [tpDel] at h
  | cons kv0 rest ih =>
      obtain ⟨k, b1⟩ := kv0
      by_cases hk : t = k
      · rw [tpDel, if_pos hk] at h
        exact List.mem_cons_of_mem _ h
      · rw [tpDel, if_neg hk] at h
        rcases List.mem_cons.mp h with h1 | h1
        · exact h1 ▸ List.mem_cons_self _ _
        · exact List.mem_cons_of_mem _ (ih h1)

theorem dictSet_ne_nil (b : Bucket) (p : Position) (s : ParticleShape) :
    dictSet b p s ≠ [] := by
  cases b with
  | nil => simp [dictSet]
  | cons kv rest =>
      obtain ⟨k, v⟩ := kv
      by_cases h : p.dict_key_eq k
      · simp [dictSet, h]
      · simp [dictSet, h]

theorem add_position_ne_nil (b : Bucket) (p : Position) (s? : Option ParticleShape) :
    PositionsAtTimePoint.add_position b p s? ≠ [] := by
  cases s? with
  | some s => exact dictSet_ne_nil b p s
  | none =>
      unfold PositionsAtTimePoint.add_position
      by_cases h : (dictFind b p).isSome
      · cases b with
        | nil => simp [dictFind] at h
        | cons kv rest => simp [h]
      · simp [h]
        exact dictSet_ne_nil b p ParticleShape.unknownShape

theorem foldl_upd_minmax (l0 : List (ℤ × Bucket)) (c : PositionCollection) :
    (l0.foldl (fun acc kv => acc.update_min_max_time_points_for_addition kv.1) c).all_positions
        = c.all_positions ∧
    (l0.foldl (fun acc kv => acc.update_min_max_time_points_for_addition kv.1) c).min_time_point_number
        = (l0.map Prod.fst).foldl minStep c.min_time_point_number ∧
    (l0.foldl (fun acc kv => acc.update_min_max_time_points_for_addition kv.1) c).max_time_point_number
        = (l0.map Prod.fst).foldl maxStep c.max_time_point_number := by
  induction l0 generalizing c with
  | nil => exact ⟨rfl, rfl, rfl⟩
  | cons kv rest ih =>
      obtain ⟨hall, hmin, hmax⟩ := ih (c.update_min_max_time_points_for_addition kv.1)
      exact ⟨hall, hmin, hmax⟩

theorem update_removal_spec (l : List (ℤ × Bucket)) (mn mx : Option ℤ) :
    (PositionCollection.update_min_max_time_points_for_removal ⟨l, mn, mx⟩).all_positions = l ∧
    (PositionCollection.update_min_max_time_points_for_removal ⟨l, mn, mx⟩).min_time_point_number
      = listMin (l.map Prod.fst) ∧
    (PositionCollection.update_min_max_time_points_for_removal ⟨l, mn, mx⟩).max_time_point_number
      = listMax (l.map Prod.fst) := by
  unfold PositionCollection.update_min_max_time_points_for_removal
  exact foldl_upd_minmax l ⟨l, none, none⟩

theorem storeInv_of_removal (l : List (ℤ × Bucket)) (mn mx : Option ℤ)
    (hb : ∀ kv ∈ l, kv.2 ≠ ([] : Bucket)) :
    StoreInv (PositionCollection.update_min_max_time_points_for_removal ⟨l, mn, mx⟩) := by
  obtain ⟨hall, hmn, hmx⟩ := update_removal_spec l mn mx
  unfold StoreInv keysOf
  rw [hall, hmn, hmx]
  exact ⟨rfl, rfl, hb⟩

theorem stepOp_preserves (c : PositionCollection) (op : StoreOp)
    (h : StoreInv c) : StoreInv (stepOp c op) := by
  obtain ⟨hmin, hmax, hbuckets⟩ := h
  unfold keysOf at hmin hmax
  cases op with
  | addPos p s =>
      cases htp : p.time_point_number with
      | none =>
          have hstep : stepOp c (StoreOp.addPos p s) = c := by
            simp only [stepOp, PositionCollection.add, htp]
          rw [hstep]
          exact ⟨hmin, hmax, hbuckets⟩
      | some t =>
          have hstep : stepOp c (StoreOp.addPos p s) =
              ⟨tpSet c.all_positions t
                  (PositionsAtTimePoint.add_position
                    ((tpFind c.all_positions t).getD []) p s),
                minStep c.min_time_point_number t,
                maxStep c.max_time_point_number t⟩ := by
            simp only [stepOp, PositionCollection.add, htp, upd_addition_fields]
          rw [hstep]
          unfold StoreInv keysOf
          cases hf : tpFind c.all_positions t with
          | some b0 =>
              refine ⟨?_, ?_, ?_⟩
              · show minStep c.min_time_point_number t = _
                rw [tpSet_keys_found _ _ _ _ hf, hmin,
                  minStep_mem _ _ (tpFind_some_mem _ _ _ hf)]
              · show maxStep c.max_time_point_number t = _
                rw [tpSet_keys_found _ _ _ _ hf, hmax,
                  maxStep_mem _ _ (tpFind_some_mem _ _ _ hf)]
              · intro kv hkv
                rcases tpSet_mem _ _ _ _ hkv with h2 | h2
                · rw [h2]
                  exact add_position_ne_nil _ p s
                · exact hbuckets kv h2
          | none =>
              refine ⟨?_, ?_, ?_⟩
              · show minStep c.min_time_point_number t = _
                rw [tpSet_keys_missing _ _ _ hf, listMin_append_single, hmin]
              · show maxStep c.max_time_point_number t = _
                rw [tpSet_keys_missing _ _ _ hf, listMax_append_single, hmax]
              · intro kv hkv
                rcases tpSet_mem _ _ _ _ hkv with h2 | h2
                · rw [h2]
                  exact add_position_ne_nil _ p s
                · exact hbuckets kv h2
  | detachPos p =>
      cases htp : p.time_point_number with
      | none =>
          have hstep : stepOp c (StoreOp.detachPos p) = c := by
            simp only [stepOp, PositionCollection.detach_position, htp]
          rw [hstep]
          exact ⟨hmin, hmax, hbuckets⟩
      | some t =>
          cases hf : tpFind c.all_positions t with
          | none =>
              have hstep : stepOp c (StoreOp.detachPos p) = c := by
                simp only [stepOp, PositionCollection.detach_position, htp, hf]
              rw [hstep]
              exact ⟨hmin, hmax, hbuckets⟩
          | some b =>
              cases hd : dictDel b p with
              | none =>
                  have hstep : stepOp c (StoreOp.detachPos p) = c := by
                    simp only [stepOp, PositionCollection.detach_position, htp, hf, hd]
                  rw [hstep]
                  exact ⟨hmin, hmax, hbuckets⟩
              | some b2 =>
                  by_cases hemp : b2 = ([] : Bucket)
                  · have hstep : stepOp c (StoreOp.detachPos p) =
                        PositionCollection.update_min_max_time_points_for_removal
                          ⟨tpDel c.all_positions t, c.min_time_point_number,
                            c.max_time_point_number⟩ := by
                      subst hemp
                      simp only [stepOp, PositionCollection.detach_position, htp, hf, hd,
                        List.isEmpty_nil, if_true]
                    rw [hstep]
                    refine storeInv_of_removal _ _ _ ?_
                    intro kv hkv
                    exact hbuckets kv (tpDel_subset _ _ _ hkv)
                  · have hne : b2.isEmpty = false := by
                      cases b2 with
                      | nil => exact absurd rfl hemp
                      | cons kv rest => rfl
                    have hstep : stepOp c (StoreOp.detachPos p) =
                        ⟨tpSet c.all_positions t b2, c.min_time_point_number,
                          c.max_time_point_number⟩ := by
                      simp only [stepOp, PositionCollection.detach_position, htp, hf, hd,
                        hne, Bool.false_eq_true, if_false]
                    rw [hstep]
                    unfold StoreInv keysOf
                    refine ⟨?_, ?_, ?_⟩
                    · show c.min_time_point_number = _
                      rw [tpSet_keys_found _ _ _ _ hf, hmin]
                    · show c.max_time_point_number = _
                      rw [tpSet_keys_found _ _ _ _ hf, hmax]
                    · intro kv hkv
                      rcases tpSet_mem _ _ _ _ hkv with h2 | h2
                      · rw [h2]
                        exact hemp
                      · exact hbuckets kv h2
  | detachAll t =>
      by_cases hf : (tpFind c.all_positions t).isSome
      · have hstep : stepOp c (StoreOp.detachAll t) =
            PositionCollection.update_min_max_time_points_for_removal
              ⟨tpDel c.all_positions t, c.min_time_point_number,
                c.max_time_point_number⟩ := by
          simp only [stepOp, PositionCollection.detach_all_for_time_point, hf, if_true]
        rw [hstep]
        refine storeInv_of_removal _ _ _ ?_
        intro kv hkv
        exact hbuckets kv (tpDel_subset _ _ _ hkv)
      · have hstep : stepOp c (StoreOp.detachAll t) = c := by
          simp only [stepOp]
          unfold PositionCollection.detach_all_for_time_point
          rw [if_neg hf]
        rw [hstep]
        exact ⟨hmin, hmax, hbuckets⟩

theorem runOps_inv (ops : List StoreOp) : StoreInv (runOps ops) := by
  have base : StoreInv PositionCollection.empty := by
    refine ⟨rfl, rfl, ?_⟩
    intro kv hkv
    simp [PositionCollection.empty] at hkv
  have gen : ∀ (l : List StoreOp) (c : PositionCollection), StoreInv c →
      StoreInv (l.foldl stepOp c) := by
    intro l
    induction l with
    | nil => exact fun c h => h
    | cons op rest ih =>
        intro c h
        exact ih (stepOp c op) (stepOp_preserves c op h)
  exact gen ops PositionCollection.empty base

theorem len_foldl (l : List (ℤ × Bucket)) (n : ℕ) :
    l.foldl (fun n kv => n + kv.2.length) n = n + (l.map (fun kv => kv.2.length)).sum := by
  induction l generalizing n with
  | nil => simp
  | cons kv rest ih =>
      simp [List.foldl_cons, ih]
      omega

theorem len_zero_iff (c : PositionCollection)
    (hb : ∀ kv ∈ c.all_positions, kv.2 ≠ ([] : Bucket)) :
    c.len = 0 ↔ c.all_positions = [] := by
  unfold PositionCollection.len
  rw [len_foldl]
  simp only [Nat.zero_add]
  constructor
  · intro h
    cases hl : c.all_positions with
    | nil => rfl
    | cons kv rest =>
        rw [hl] at h
        simp only [List.map_cons, List.sum_cons] at h
        have : kv.2.length = 0 := by omega
        have : kv.2 = [] := List.length_eq_zero.mp this
        exact absurd this (hb kv (hl ▸ List.mem_cons_self _ _))
  · intro h
    rw [h]
    rfl

/-- C9: after an arbitrary sequence of add / detach_position /
detach_all_for_time_point operations against an initially empty store, the
first and last time point numbers are exactly the minimum and maximum over
the keys of the (always non-empty) time-point buckets, and they are None
exactly when the store holds no positions at all. -/
theorem C9_min_max_time_points (ops : List StoreOp) :
    (runOps ops).first_time_point_number = listMin (keysOf (runOps ops)) ∧
    (runOps ops).last_time_point_number = listMax (keysOf (runOps ops)) ∧
    ((runOps ops).first_time_point_number = none ↔ (runOps ops).len = 0) := by
  obtain ⟨hmin, hmax, hbuckets⟩ := runOps_inv ops
  refine ⟨hmin, hmax, ?_⟩
  rw [PositionCollection.first_time_point_number, hmin,
    len_zero_iff _ hbuckets, listMin_eq_none_iff]
  unfold keysOf
  simp

theorem get_pdSet_same (pd : PosData) (p : Position) (key : String) (v : PyVal) :
    get_position_data (pdSet pd p key v) p key = some v := by
  induction pd with
  | nil => simp [pdSet, get_position_data, p.dict_key_eq_refl]
  | cons kv rest ih =>
      obtain ⟨⟨k, n⟩, v0⟩ := kv
      by_cases h : p.dict_key_eq k ∧ n = key
      · simp [pdSet, get_position_data, h]
      · simp [pdSet, get_position_data, h, ih]

theorem get_pdSet_other_key (pd : PosData) (p : Position) (key1 key2 : String)
    (v : PyVal) (h : key1 ≠ key2) :
    get_position_data (pdSet pd p key1 v) p key2 = get_position_data pd p key2 := by
  induction pd with
  | nil => simp [pdSet, get_position_data, h]
  | cons kv rest ih =>
      obtain ⟨⟨k, n⟩, v0⟩ := kv
      by_cases hc : p.dict_key_eq k ∧ n = key1
      · have hn2 : ¬ (p.dict_key_eq k ∧ n = key2) := by
          rintro ⟨_, h2⟩
          exact h (by rw [← hc.2, h2])
        have hn2b : ¬ (p.dict_key_eq k ∧ n = key2) := hn2
        simp only [pdSet, if_pos hc, get_position_data, if_neg hn2, if_neg hn2b]
      · by_cases hc2 : p.dict_key_eq k ∧ n = key2
        · simp only [pdSet, if_neg hc, get_position_data, if_pos hc2]
        · simp only [pdSet, if_neg hc, get_position_data, if_neg hc2, ih]

/-- C10: Score.get never raises — it returns the stored factor value when
the factor exists and 0.0 when it does not, so a missing factor simply
contributes zero. -/
theorem C10_score_get_missing_is_zero (s : Score) (key : String) :
    (∀ v, s.lookup key = some v → s.get key = v) ∧
    (s.lookup key = none → s.get key = 0) := by
  constructor
  · intro v hv
    unfold Score.get
    rw [hv]
  · intro hv
    unfold Score.get
    rw [hv]

/-- C10 witness: on the concrete score, the stored factor is returned and
the missing factor yields 0. -/
theorem C10_witness : scoreFoo.get fooKey = 4 ∧ scoreFoo.get barKey = 0 := by
  constructor
  · exact (C10_score_get_missing_is_zero scoreFoo fooKey).1 4 (by decide)
  · exact (C10_score_get_missing_is_zero scoreFoo barKey).2 (by decide)

/-- C5: the claim says Family construction must reject a daughter set of
size other than two (raising InvalidArgument for equal daughters).  The
code refutes this: Family(mother, d, d) raises nothing — the constructor
is total — and silently builds the one-element daughter set {d},
contradicting the comment on line 68 of score.py that the constructor
ensures a set of size two. -/
theorem C5_family_accepts_equal_daughters :
    (Family.init posA posB posB).daughters = [posB] ∧
    (Family.init posA posB posB).daughters.length ≠ 2 := by
  constructor <;> simp [Family.init, Position.dict_key_eq_refl]

/-- C8: suppression is code-specific — after suppressing code e1 on a
position, setting error e1 makes the marker read None while setting a
different code e2 makes it read e2; and the underlying "error" value is
hidden, not deleted. -/
theorem C8_error_suppression (pd : PosData) (p : Position) (e1 e2 : ℤ)
    (hne : e1 ≠ e2) :
    get_error_marker (set_error_marker (suppress_error_marker pd p e1) p (some e1)) p
      = Except.ok none ∧
    get_error_marker (set_error_marker (suppress_error_marker pd p e1) p (some e2)) p
      = Except.ok (some e2) ∧
    get_position_data (set_error_marker (suppress_error_marker pd p e1) p (some e1)) p
      errorKey = some (PyVal.intVal e1) := by
  have hkeys : errorKey ≠ suppressedErrorKey := by decide
  have herr1 : get_position_data
      (set_error_marker (suppress_error_marker pd p e1) p (some e1)) p errorKey
      = some (PyVal.intVal e1) := get_pdSet_same _ p errorKey _
  have herr2 : get_position_data
      (set_error_marker (suppress_error_marker pd p e1) p (some e2)) p errorKey
      = some (PyVal.intVal e2) := get_pdSet_same _ p errorKey _
  have hsup1 : get_position_data
      (set_error_marker (suppress_error_marker pd p e1) p (some e1)) p
      suppressedErrorKey = some (PyVal.intVal e1) := by
    show get_position_data (pdSet _ p errorKey _) p suppressedErrorKey = _
    rw [get_pdSet_other_key _ _ _ _ _ hkeys]
    exact get_pdSet_same _ p suppressedErrorKey _
  have hsup2 : get_position_data
      (set_error_marker (suppress_error_marker pd p e1) p (some e2)) p
      suppressedErrorKey = some (PyVal.intVal e1) := by
    show get_position_data (pdSet _ p errorKey _) p suppressedErrorKey = _
    rw [get_pdSet_other_key _ _ _ _ _ hkeys]
    exact get_pdSet_same _ p suppressedErrorKey _
  refine ⟨?_, ?_, herr1⟩
  · unfold get_error_marker
    rw [herr1, hsup1]
    simp [PyVal.pyEq, PyVal.toNum]
  · unfold get_error_marker
    rw [herr2, hsup2]
    simp [PyVal.pyEq, PyVal.toNum, Rat.intCast_inj, hne]

/-- C8 witness: the spec scenario with codes 4 and 5 on a concrete
position and an empty annotation store. -/
theorem C8_witness :
    get_error_marker (set_error_marker (suppress_error_marker [] posA 4) posA (some 4)) posA
      = Except.ok none ∧
    get_error_marker (set_error_marker (suppress_error_marker [] posA 4) posA (some 5)) posA
      = Except.ok (some 5) ∧
    get_position_data (set_error_marker (suppress_error_marker [] posA 4) posA (some 4)) posA
      errorKey = some (PyVal.intVal 4) :=
  C8_error_suppression [] posA 4 5 (by decide)

theorem divisionCountLoop_spec (pd : PosData) (last : ℤ) (L : List LinkingTrack)
    (acc : ℕ)
    (hwf : ∀ tr ∈ L, tr.min_time_point_number ≤ tr.max_time_point_number)
    (hm : ∀ tr ∈ L, tr.next_tracks = [] →
      ∃ m, get_track_end_marker pd tr.last_position = Except.ok m) :
    divisionCountLoop pd last L acc =
      Except.ok (if L.any (unexplainedEnd pd last) then none
        else some (acc + L.countP (isDivision last))) := by
  induction L generalizing acc with
  | nil => simp [divisionCountLoop]
  | cons tr rest ih =>
      have hwfr : ∀ t2 ∈ rest, t2.min_time_point_number ≤ t2.max_time_point_number :=
        fun t2 h2 => hwf t2 (List.mem_cons_of_mem _ h2)
      have hmr : ∀ t2 ∈ rest, t2.next_tracks = [] →
          ∃ m, get_track_end_marker pd t2.last_position = Except.ok m :=
        fun t2 h2 => hm t2 (List.mem_cons_of_mem _ h2)
      have ihr := fun acc => ih acc hwfr hmr
      by_cases hskip : tr.min_time_point_number > last
      · have hmax : ¬ tr.max_time_point_number < last := by
          have := hwf tr (List.mem_cons_self _ _)
          omega
        have hunex : unexplainedEnd pd last tr = false := by
          unfold unexplainedEnd
          simp [hmax]
        have hdiv : isDivision last tr = false := by
          unfold isDivision
          simp [hmax]
        rw [divisionCountLoop, if_pos hskip, ihr acc]
        simp [List.any_cons, hunex, List.countP_cons, hdiv]
      · rw [divisionCountLoop, if_neg hskip]
        by_cases hempty : tr.next_tracks.isEmpty
        · obtain ⟨m, hmark⟩ := hm tr (List.mem_cons_self _ _)
            (List.isEmpty_iff.mp hempty)
          rw [if_pos hempty, hmark]
          show (if m ≠ some EndMarker.DEAD ∧ tr.max_time_point_number < last then
              Except.ok none
            else divisionCountLoop pd last rest acc) = _
          by_cases hcond : m ≠ some EndMarker.DEAD ∧ tr.max_time_point_number < last
          · have hunex : unexplainedEnd pd last tr = true := by
              unfold unexplainedEnd
              rw [hmark]
              rcases m with _ | m2
              · simp [hempty, hcond.2]
              · cases m2 with
                | DEAD => exact absurd rfl hcond.1
                | OUT_OF_VIEW => simp [hempty, hcond.2]
            rw [if_pos hcond]
            simp [List.any_cons, hunex]
          · have hunex : unexplainedEnd pd last tr = false := by
              unfold unexplainedEnd
              rw [hmark]
              rw [Classical.not_and_iff_or_not_not] at hcond
              rcases hcond with hdead | hmax
              · have : m = some EndMarker.DEAD := not_not.mp hdead
                subst this
                simp
              · simp [hmax]
            have hdiv : isDivision last tr = false := by
              unfold isDivision
              have : tr.next_tracks.length = 0 := by
                rw [List.isEmpty_iff.mp hempty]
                rfl
              simp [this]
            rw [if_neg hcond, ihr acc]
            simp [List.any_cons, hunex, List.countP_cons, hdiv]
        · have hunex : unexplainedEnd pd last tr = false := by
            unfold unexplainedEnd
            simp [hempty]
          rw [if_neg hempty]
          by_cases hcond : tr.max_time_point_number < last ∧ tr.next_tracks.length > 1
          · have hdiv : isDivision last tr = true := by
              unfold isDivision
              simp [hcond.1, hcond.2]
            rw [if_pos hcond, ihr (acc + 1)]
            simp only [List.any_cons, hunex, Bool.false_or, List.countP_cons, hdiv,
              if_true]
            congr 1
            by_cases hrest : rest.any (unexplainedEnd pd last)
            · simp [hrest]
            · simp [hrest]
              omega
          · have hdiv : isDivision last tr = false := by
              unfold isDivision
              rw [Classical.not_and_iff_or_not_not] at hcond
              rcases hcond with hmax | hlen
              · simp [hmax]
              · simp [hlen]
            rw [if_neg hcond, ihr acc]
            simp [List.any_cons, hunex, List.countP_cons, hdiv]

/-- C3: the division count of a lineage is None exactly when some
descending track (the walk includes the start; tracks starting after the
window end are skipped, and — having well-formed time ranges — can trigger
neither branch) ends unexplained: no next tracks, no DEAD end marker, end
before the window end.  Otherwise it is the number of descending tracks
that end before the window end and have more than one next track; an
unexplained end is never coerced to 0. -/
theorem C3_division_count_in_lineage (pd : PosData) (g : List LinkingTrack)
    (start : ℕ) (last : ℤ)
    (hwf : ∀ tr ∈ find_all_descending_tracks g start,
      tr.min_time_point_number ≤ tr.max_time_point_number)
    (hm : ∀ tr ∈ find_all_descending_tracks g start, tr.next_tracks = [] →
      ∃ m, get_track_end_marker pd tr.last_position = Except.ok m) :
    get_division_count_in_lineage pd g start last =
      Except.ok
        (if (find_all_descending_tracks g start).any (unexplainedEnd pd last) then
          none
        else
          some ((find_all_descending_tracks g start).countP (isDivision last))) := by
  unfold get_division_count_in_lineage
  rw [divisionCountLoop_spec pd last _ 0 hwf hm]
  simp

/-- C3 witness: the one-track lineage that reaches the window end
lastTimeIndex = 5 has division count 0 (not None). -/
theorem C3_witness :
    get_division_count_in_lineage [] graphW 0 5 = Except.ok (some 0) := by
  have hdesc : find_all_descending_tracks graphW 0 = [trackW] := by decide
  have h := C3_division_count_in_lineage [] graphW 0 5
    (by
      rw [hdesc]
      intro tr htr
      rw [List.mem_singleton] at htr
      subst htr
      decide)
    (by
      rw [hdesc]
      intro tr htr
      rw [List.mem_singleton] at htr
      subst htr
      intro _
      exact ⟨none, rfl⟩)
  have heval : (if [trackW].any (unexplainedEnd [] 5) = true then none
      else some (List.countP (isDivision 5) [trackW])) = some 0 := by decide
  rw [h, hdesc, heval]

/-- C2: the claim says every command, applied to any state and reverted,
restores the state exactly.  The code refutes this: constructing the move
command on a state where the destination position already exists, applying
and reverting it loses the destination position — the move overwrites it
and the reverting move takes it away. -/
theorem C2_counterexample :
    mkMovePositionAction eCex otA otB [] = Except.ok actCex ∧
    eCex.positions otB = some (ParticleShape.gaussianShape 2) ∧
    (actCex.undo_cmd (actCex.do_cmd eCex)).positions otB = none := by
  refine ⟨rfl, by decide, by decide⟩

theorem applyData_spec (data : List (String × PyVal)) (e : Experiment)
    (a b : OTPosition) :
    (data.foldl (fun ex kv => set_link_data ex a b kv.1 (some kv.2)) e).positions
        = e.positions ∧
    (data.foldl (fun ex kv => set_link_data ex a b kv.1 (some kv.2)) e).links
        = e.links ∧
    ∀ p q k,
      (data.foldl (fun ex kv => set_link_data ex a b kv.1 (some kv.2)) e).link_data p q k
        = if edgeMatches a b p q then
            match lastLookup data k with
            | some v => some v
            | none => e.link_data p q k
          else e.link_data p q k := by
  induction data generalizing e with
  | nil =>
      refine ⟨rfl, rfl, ?_⟩
      intro p q k
      by_cases h : edgeMatches a b p q <;> simp [lastLookup, h]
  | cons kv rest ih =>
      obtain ⟨k0, v⟩ := kv
      obtain ⟨hpos, hlinks, hdata⟩ := ih (set_link_data e a b k0 (some v))
      refine ⟨hpos, hlinks, ?_⟩
      intro p q k
      rw [List.foldl_cons, hdata p q k]
      by_cases hedge : edgeMatches a b p q
      · simp only [hedge, if_true, lastLookup]
        cases hrest : lastLookup rest k with
        | some v2 => rfl
        | none =>
            simp only [set_link_data]
            by_cases hk : k0 = k
            · subst hk
              simp [hedge]
            · have hk2 : ¬ (k = k0) := fun hc => hk hc.symm
              simp [hedge, hk, hk2]
      · simp only [hedge, if_false, set_link_data]
        have : ¬ (edgeMatches a b p q ∧ k = k0) := fun hc => hedge hc.1
        simp [this]

theorem pairsMatch_cons (a b : OTPosition) (d : List (String × PyVal))
    (rest : List (OTPosition × OTPosition × List (String × PyVal)))
    (p q : OTPosition) :
    pairsMatch ((a, b, d) :: rest) p q ↔ edgeMatches a b p q ∨ pairsMatch rest p q := by
  unfold pairsMatch
  simp

theorem deleteLinksDo_spec
    (pairs : List (OTPosition × OTPosition × List (String × PyVal)))
    (e e2 : Experiment) (h : deleteLinksDo pairs e = Except.ok e2) :
    (∀ p, e2.positions p = e.positions p) ∧
    (∀ p q, e2.links p q = if pairsMatch pairs p q then false else e.links p q) ∧
    (∀ p q k, e2.link_data p q k =
      if pairsMatch pairs p q then none else e.link_data p q k) := by
  induction pairs generalizing e with
  | nil =>
      rw [deleteLinksDo] at h
      injection h with h2
      subst h2
      refine ⟨fun p => rfl, ?_, ?_⟩
      · intro p q
        simp [pairsMatch]
      · intro p q k
        simp [pairsMatch]
  | cons pr rest ih =>
      obtain ⟨a, b, d⟩ := pr
      rw [deleteLinksDo] at h
      unfold remove_link at h
      by_cases hl : e.links a b
      · rw [if_pos hl] at h
        simp only at h
        obtain ⟨hpos, hlinks, hdata⟩ := ih _ h
        refine ⟨fun p => hpos p, ?_, ?_⟩
        · intro p q
          rw [hlinks p q]
          by_cases h1 : edgeMatches a b p q <;>
            by_cases h2 : pairsMatch rest p q <;>
              simp [pairsMatch_cons, h1, h2]
        · intro p q k
          rw [hdata p q k]
          by_cases h1 : edgeMatches a b p q <;>
            by_cases h2 : pairsMatch rest p q <;>
              simp [pairsMatch_cons, h1, h2]
      · rw [if_neg hl] at h
        simp at h

theorem deleteLinksUndo_spec
    (pairs : List (OTPosition × OTPosition × List (String × PyVal)))
    (e3 : Experiment)
    (hdist : pairs.Pairwise
      (fun x y => ∀ p q, edgeMatches x.1 x.2.1 p q → ¬ edgeMatches y.1 y.2.1 p q)) :
    (∀ p, (deleteLinksUndo pairs e3).positions p = e3.positions p) ∧
    (∀ p q, (deleteLinksUndo pairs e3).links p q =
      if pairsMatch pairs p q then true else e3.links p q) ∧
    (∀ p q k pr, pr ∈ pairs → edgeMatches pr.1 pr.2.1 p q →
      (deleteLinksUndo pairs e3).link_data p q k =
        match lastLookup pr.2.2 k with
        | some v => some v
        | none => e3.link_data p q k) ∧
    (∀ p q k, ¬ pairsMatch pairs p q →
      (deleteLinksUndo pairs e3).link_data p q k = e3.link_data p q k) := by
  induction pairs generalizing e3 with
  | nil =>
      refine ⟨fun p => rfl, ?_, ?_, fun p q k _ => rfl⟩
      · intro p q
        simp [deleteLinksUndo, pairsMatch]
      · intro p q k pr hpr
        simp at hpr
  | cons hd rest ih =>
      obtain ⟨a, b, d⟩ := hd
      rcases List.pairwise_cons.mp hdist with ⟨hhead, hrest⟩
      rw [deleteLinksUndo]
      obtain ⟨hfp, hfl, hfd⟩ := applyData_spec d (add_link e3 a b) a b
      set e4 := d.foldl (fun ex kv => set_link_data ex a b kv.1 (some kv.2))
        (add_link e3 a b) with he4
      have e4pos : ∀ p, e4.positions p = e3.positions p := by
        intro p
        rw [hfp]
        rfl
      have e4links : ∀ p q, e4.links p q =
          if edgeMatches a b p q then true else e3.links p q := by
        intro p q
        rw [hfl]
        rfl
      have e4data : ∀ p q k, e4.link_data p q k =
          if edgeMatches a b p q then
            match lastLookup d k with
            | some v => some v
            | none => e3.link_data p q k
          else e3.link_data p q k := by
        intro p q k
        rw [hfd p q k]
        rfl
      obtain ⟨ipos, ilinks, idataM, idataN⟩ := ih e4 hrest
      refine ⟨?_, ?_, ?_, ?_⟩
      · exact fun p => (ipos p).trans (e4pos p)
      · intro p q
        rw [ilinks p q, e4links p q]
        by_cases h1 : edgeMatches a b p q <;>
          by_cases h2 : pairsMatch rest p q <;>
            simp [pairsMatch_cons, h1, h2]
      · intro p q k pr hpr hm
        rcases List.mem_cons.mp hpr with hpr1 | hpr1
        · subst hpr1
          have hm2 : edgeMatches a b p q := hm
          have hnorest : ¬ pairsMatch rest p q := by
            rintro ⟨y, hy, hym⟩
            exact hhead y hy p q hm2 hym
          rw [idataN p q k hnorest, e4data p q k, if_pos hm2]
        · have hnh : ¬ edgeMatches a b p q := fun hc => hhead pr hpr1 p q hc hm
          rw [idataM p q k pr hpr1 hm]
          cases hc : lastLookup pr.2.2 k with
          | some v => rfl
          | none => rw [e4data p q k, if_neg hnh]
      · intro p q k hnm
        rw [pairsMatch_cons] at hnm
        push_neg at hnm
        rw [idataN p q k hnm.2, e4data p q k, if_neg hnm.1]

theorem probLookup_map (incident : List OTPosition) (f : OTPosition → Option PyVal)
    (x : OTPosition) :
    probLookup (incident.map (fun q => (q, f q))) x =
      if x ∈ incident then f x else none := by
  induction incident with
  | nil => simp [probLookup]
  | cons q0 rest ih =>
      by_cases h : q0 = x
      · subst h
        simp [probLookup, List.find?]
      · have hbeq : (q0 == x) = false := by
          simp [h]
        simp only [List.map_cons, probLookup, List.find?, hbeq, cond_false]
        show probLookup (rest.map (fun q => (q, f q))) x = _
        rw [ih]
        have hxq : ¬ x = q0 := fun hc => h hc.symm
        simp [hxq]

theorem moveActionRoundTrip (e : Experiment) (A B : OTPosition)
    (incident : List OTPosition)
    (hsym : ∀ p q, e.links p q = e.links q p)
    (hdsym : ∀ p q k, e.link_data p q k = e.link_data q p k)
    (hne : A ≠ B)
    (hfp : e.positions B = none)
    (hfl : ∀ q, e.links B q = false)
    (hfd : ∀ q k, e.link_data B q k = none)
    (hinc : ∀ q, q ∈ incident ↔ e.links A q = true) :
    (∀ p, ((MovePositionAction.mk A B (incident.map (fun q => (q, get_link_data e A q lpKey)))).undo_cmd
        ((MovePositionAction.mk A B (incident.map (fun q => (q, get_link_data e A q lpKey)))).do_cmd e)).positions p
      = e.positions p) ∧
    (∀ p q, ((MovePositionAction.mk A B (incident.map (fun q => (q, get_link_data e A q lpKey)))).undo_cmd
        ((MovePositionAction.mk A B (incident.map (fun q => (q, get_link_data e A q lpKey)))).do_cmd e)).links p q
      = e.links p q) ∧
    (∀ p q k, ((MovePositionAction.mk A B (incident.map (fun q => (q, get_link_data e A q lpKey)))).undo_cmd
        ((MovePositionAction.mk A B (incident.map (fun q => (q, get_link_data e A q lpKey)))).do_cmd e)).link_data p q k
      = e.link_data p q k) := by
  have hBA : B ≠ A := fun hc => hne hc.symm
  set probs := incident.map (fun q => (q, get_link_data e A q lpKey)) with hprobs
  set act : MovePositionAction := MovePositionAction.mk A B probs with hact
  have hPL : ∀ x, probLookup probs x =
      if e.links A x = true then e.link_data A x lpKey else none := by
    intro x
    rw [hprobs, probLookup_map]
    by_cases hx : x ∈ incident
    · rw [if_pos hx, if_pos ((hinc x).mp hx)]
      rfl
    · rw [if_neg hx, if_neg (fun hc => hx ((hinc x).mpr hc))]
  have hE1L : ∀ x y, (e.move_position A B).links x y =
      if x = A ∨ y = A then false
      else e.links (if x = B then A else x) (if y = B then A else y) :=
    fun x y => rfl
  have hE3P : ∀ p,
      ((act.do_cmd e).move_position B A).positions p = e.positions p := by
    intro p
    show (if p = A then (act.do_cmd e).positions B
      else if p = B then none else (act.do_cmd e).positions p) = e.positions p
    by_cases hpA : p = A
    · rw [if_pos hpA, hpA]
      show (if B = B then e.positions A else if B = A then none else e.positions B)
          = e.positions A
      rw [if_pos rfl]
    · rw [if_neg hpA]
      by_cases hpB : p = B
      · rw [if_pos hpB, hpB, hfp]
      · rw [if_neg hpB]
        show (if p = B then e.positions A else if p = A then none else e.positions p)
            = e.positions p
        rw [if_neg hpB, if_neg hpA]
  have hE3L : ∀ p q,
      ((act.do_cmd e).move_position B A).links p q = e.links p q := by
    intro p q
    show (if p = B ∨ q = B then false
      else (e.move_position A B).links (if p = A then B else p) (if q = A then B else q))
        = e.links p q
    by_cases hpB : p = B
    · rw [if_pos (Or.inl hpB), hpB, hfl]
    · by_cases hqB : q = B
      · rw [if_pos (Or.inr hqB), hqB, hsym p B, hfl]
      · rw [if_neg (by tauto)]
        by_cases hpA : p = A
        · rw [if_pos hpA]
          by_cases hqA : q = A
          · rw [if_pos hqA, hE1L, if_neg (by tauto), if_pos rfl, hpA, hqA]
          · rw [if_neg hqA, hE1L, if_neg (by tauto), if_pos rfl, if_neg hqB, hpA]
        · rw [if_neg hpA]
          by_cases hqA : q = A
          · rw [if_pos hqA, hE1L, if_neg (by tauto), if_neg hpB, if_pos rfl, hqA]
          · rw [if_neg hqA, hE1L, if_neg (by tauto), if_neg hpB, if_neg hqB]
  have hEDD : ∀ x y k, (act.do_cmd e).link_data x y k =
      if k = lpKey ∧ ((x = B ∧ (e.move_position A B).links B y = true)
          ∨ (y = B ∧ (e.move_position A B).links B x = true)) then none
      else (e.move_position A B).link_data x y k :=
    fun x y k => rfl
  have hE1D : ∀ x y k, (e.move_position A B).link_data x y k =
      if x = A ∨ y = A then none
      else e.link_data (if x = B then A else x) (if y = B then A else y) k :=
    fun x y k => rfl
  have hE3D : ∀ p q k,
      ((act.do_cmd e).move_position B A).link_data p q k =
        if p = B ∨ q = B then none
        else (act.do_cmd e).link_data (if p = A then B else p) (if q = A then B else q) k :=
    fun p q k => rfl
  have hdata : ∀ p q k,
      (if k = lpKey ∧ p = A ∧ ((act.do_cmd e).move_position B A).links A q = true then
        probLookup probs q
      else if k = lpKey ∧ q = A ∧ ((act.do_cmd e).move_position B A).links A p = true then
        probLookup probs p
      else ((act.do_cmd e).move_position B A).link_data p q k) = e.link_data p q k := by
    intro p q k
    by_cases hc1 : k = lpKey ∧ p = A ∧ ((act.do_cmd e).move_position B A).links A q = true
    · obtain ⟨hk, hpA, hlq0⟩ := hc1
      have hlq : e.links A q = true := by
        rw [hE3L] at hlq0
        exact hlq0
      rw [if_pos ⟨hk, hpA, hlq0⟩, hPL, if_pos hlq, hpA, hk]
    · rw [if_neg hc1]
      by_cases hc2 : k = lpKey ∧ q = A ∧ ((act.do_cmd e).move_position B A).links A p = true
      · obtain ⟨hk, hqA, hlp0⟩ := hc2
        have hlp : e.links A p = true := by
          rw [hE3L] at hlp0
          exact hlp0
        rw [if_pos ⟨hk, hqA, hlp0⟩, hPL, if_pos hlp, hqA, hk]
        exact (hdsym p A lpKey).symm
      · rw [if_neg hc2, hE3D]
        by_cases hpB : p = B
        · rw [if_pos (Or.inl hpB), hpB]
          exact (hfd q k).symm
        · by_cases hqB : q = B
          · rw [if_pos (Or.inr hqB), hqB]
            exact ((hdsym p B k).trans (hfd p k)).symm
          · rw [if_neg (by tauto)]
            by_cases hpA : p = A
            · rw [if_pos hpA]
              by_cases hqA : q = A
              · rw [if_pos hqA, hEDD, if_neg ?hcl1, hE1D, if_neg (by tauto),
                  if_pos rfl, hpA, hqA]
                case hcl1 =>
                  rintro ⟨hk, hdisj⟩
                  have hLBB : (e.move_position A B).links B B = true := by
                    rcases hdisj with ⟨-, hl⟩ | ⟨-, hl⟩ <;> exact hl
                  rw [hE1L, if_neg (by tauto), if_pos rfl] at hLBB
                  exact hc1 ⟨hk, hpA, by rw [hE3L, hqA]; exact hLBB⟩
              · rw [if_neg hqA, hEDD, if_neg ?hcl2, hE1D, if_neg (by tauto),
                  if_pos rfl, if_neg hqB, hpA]
                case hcl2 =>
                  rintro ⟨hk, hdisj⟩
                  rcases hdisj with ⟨-, hl⟩ | ⟨hq2, -⟩
                  · rw [hE1L, if_neg (by tauto), if_pos rfl, if_neg hqB] at hl
                    exact hc1 ⟨hk, hpA, by rw [hE3L]; exact hl⟩
                  · exact hqB hq2
            · rw [if_neg hpA]
              by_cases hqA : q = A
              · rw [if_pos hqA, hEDD, if_neg ?hcl3, hE1D, if_neg (by tauto),
                  if_neg hpB, if_pos rfl, hqA]
                case hcl3 =>
                  rintro ⟨hk, hdisj⟩
                  rcases hdisj with ⟨hp2, -⟩ | ⟨-, hl⟩
                  · exact hpB hp2
                  · rw [hE1L, if_neg (by tauto), if_pos rfl, if_neg hpB] at hl
                    exact hc2 ⟨hk, hqA, by rw [hE3L]; exact hl⟩
              · rw [if_neg hqA, hEDD, if_neg ?hcl4, hE1D, if_neg (by tauto),
                  if_neg hpB, if_neg hqB]
                case hcl4 =>
                  rintro ⟨-, hdisj⟩
                  rcases hdisj with ⟨hp2, -⟩ | ⟨hq2, -⟩
                  · exact hpB hp2
                  · exact hqB hq2
  exact ⟨fun p => hE3P p, fun p q => hE3L p q, fun p q k => hdata p q k⟩

theorem edgeMatches_symm {a b p q : OTPosition} (h : edgeMatches a b p q) :
    edgeMatches a b q p := by
  unfold edgeMatches at *
  tauto

/-- C2 (amended): apply-then-revert restores the state exactly for the
delete-links and move-position commands, provided their preconditions
hold: for delete-links, the captured pairs are pairwise distinct links
present in the state with their annotation snapshots taken from it; for
move-position, the command was built on the state, the destination is a
genuinely fresh position (not stored, no links, no annotations), distinct
from the source.  Without those preconditions the round trip fails — see
the counterexample of a move onto an already occupied position. -/
theorem C2_round_trip_amended :
    (∀ (e e2 : Experiment)
        (pairs : List (OTPosition × OTPosition × List (String × PyVal))),
      Experiment.wf e →
      (∀ pr ∈ pairs, e.links pr.1 pr.2.1 = true ∧
        ∀ k, lastLookup pr.2.2 k = e.link_data pr.1 pr.2.1 k) →
      pairs.Pairwise
        (fun x y => ∀ p q, edgeMatches x.1 x.2.1 p q → ¬ edgeMatches y.1 y.2.1 p q) →
      deleteLinksDo pairs e = Except.ok e2 →
      (∀ p, (deleteLinksUndo pairs e2).positions p = e.positions p) ∧
      (∀ p q, (deleteLinksUndo pairs e2).links p q = e.links p q) ∧
      (∀ p q k, (deleteLinksUndo pairs e2).link_data p q k = e.link_data p q k)) ∧
    (∀ (e : Experiment) (old_position new_position : OTPosition)
        (incident : List OTPosition) (act : MovePositionAction),
      Experiment.wf e →
      old_position ≠ new_position →
      e.positions new_position = none →
      (∀ q, e.links new_position q = false) →
      (∀ q k, e.link_data new_position q k = none) →
      (∀ q, q ∈ incident ↔ e.links old_position q = true) →
      mkMovePositionAction e old_position new_position incident = Except.ok act →
      (∀ p, (act.undo_cmd (act.do_cmd e)).positions p = e.positions p) ∧
      (∀ p q, (act.undo_cmd (act.do_cmd e)).links p q = e.links p q) ∧
      (∀ p q k, (act.undo_cmd (act.do_cmd e)).link_data p q k = e.link_data p q k)) := by
  constructor
  · intro e e2 pairs hwf hpairs hdist hdo
    obtain ⟨hsym, hdsym⟩ := hwf
    obtain ⟨dpos, dlinks, ddata⟩ := deleteLinksDo_spec pairs e e2 hdo
    obtain ⟨upos, ulinks, udataM, udataN⟩ := deleteLinksUndo_spec pairs e2 hdist
    refine ⟨?_, ?_, ?_⟩
    · exact fun p => (upos p).trans (dpos p)
    · intro p q
      rw [ulinks p q]
      by_cases hm : pairsMatch pairs p q
      · rw [if_pos hm]
        obtain ⟨pr, hpr, hem⟩ := hm
        have hl := (hpairs pr hpr).1
        rcases hem with ⟨hp, hq⟩ | ⟨hp, hq⟩
        · rw [hp, hq]
          exact hl.symm
        · rw [hp, hq, hsym pr.2.1 pr.1]
          exact hl.symm
      · rw [if_neg hm, dlinks p q, if_neg hm]
    · intro p q k
      by_cases hm : pairsMatch pairs p q
      · obtain ⟨pr, hpr, hem⟩ := hm
        rw [udataM p q k pr hpr hem]
        have hag := (hpairs pr hpr).2 k
        have hd2 : e2.link_data p q k = none := by
          rw [ddata p q k, if_pos ⟨pr, hpr, hem⟩]
        cases hll : lastLookup pr.2.2 k with
        | some v =>
            rw [hll] at hag
            show some v = e.link_data p q k
            rcases hem with ⟨hp, hq⟩ | ⟨hp, hq⟩
            · rw [hp, hq]
              exact hag
            · rw [hp, hq, hdsym pr.2.1 pr.1 k]
              exact hag
        | none =>
            rw [hll] at hag
            show e2.link_data p q k = e.link_data p q k
            rw [hd2]
            rcases hem with ⟨hp, hq⟩ | ⟨hp, hq⟩
            · rw [hp, hq]
              exact hag
            · rw [hp, hq, hdsym pr.2.1 pr.1 k]
              exact hag
      · rw [udataN p q k hm, ddata p q k, if_neg hm]
  · intro e old_position new_position incident act hwf hne hfp hfl hfd hinc hmk
    unfold mkMovePositionAction at hmk
    by_cases ht : old_position.time_point_number ≠ new_position.time_point_number
    · rw [if_pos ht] at hmk
      exact absurd hmk (by simp)
    · rw [if_neg ht] at hmk
      injection hmk with hmk2
      subst hmk2
      obtain ⟨hsym, hdsym⟩ := hwf
      exact moveActionRoundTrip e old_position new_position incident hsym hdsym hne
        hfp hfl hfd hinc

/-- C2 witness: on the concrete one-link state, deleting the link and
undoing restores both the link and its annotation; on the concrete
one-position state, moving otA to the fresh otB and undoing restores the
position store at both points. -/
theorem C2_witness :
    (deleteLinksUndo pairsW expW2).links otA otD = expW.links otA otD ∧
    (deleteLinksUndo pairsW expW2).link_data otA otD lpKey
      = expW.link_data otA otD lpKey ∧
    (actCex.undo_cmd (actCex.do_cmd expM)).positions otA = expM.positions otA ∧
    (actCex.undo_cmd (actCex.do_cmd expM)).positions otB = expM.positions otB := by
  have hwfW : Experiment.wf expW := by
    constructor
    · intro p q
      show (if edgeMatches otA otD p q then true else expEmpty.links p q)
        = (if edgeMatches otA otD q p then true else expEmpty.links q p)
      by_cases h : edgeMatches otA otD p q
      · rw [if_pos h, if_pos (edgeMatches_symm h)]
      · rw [if_neg h, if_neg (fun hc => h (edgeMatches_symm hc))]
        rfl
    · intro p q k
      show (if edgeMatches otA otD p q ∧ k = lpKey then some (PyVal.floatVal 1)
          else (add_link expEmpty otA otD).link_data p q k)
        = (if edgeMatches otA otD q p ∧ k = lpKey then some (PyVal.floatVal 1)
          else (add_link expEmpty otA otD).link_data q p k)
      by_cases h : edgeMatches otA otD p q ∧ k = lpKey
      · rw [if_pos h, if_pos ⟨edgeMatches_symm h.1, h.2⟩]
      · rw [if_neg h, if_neg (fun hc => h ⟨edgeMatches_symm hc.1, hc.2⟩)]
        rfl
  have hpairsW : ∀ pr ∈ pairsW, expW.links pr.1 pr.2.1 = true ∧
      ∀ k, lastLookup pr.2.2 k = expW.link_data pr.1 pr.2.1 k := by
    intro pr hpr
    rw [show pairsW = [(otA, otD, [(lpKey, PyVal.floatVal 1)])] from rfl,
      List.mem_singleton] at hpr
    subst hpr
    constructor
    · decide
    · intro k
      show (match lastLookup [] k with
        | some v2 => some v2
        | none => if lpKey = k then some (PyVal.floatVal 1) else none)
        = expW.link_data otA otD k
      show (if lpKey = k then some (PyVal.floatVal 1) else none)
        = (if edgeMatches otA otD otA otD ∧ k = lpKey then some (PyVal.floatVal 1)
          else (add_link expEmpty otA otD).link_data otA otD k)
      by_cases hk : k = lpKey
      · rw [if_pos hk.symm, if_pos ⟨Or.inl ⟨rfl, rfl⟩, hk⟩]
      · rw [if_neg (fun hc => hk hc.symm), if_neg (fun hc => hk hc.2)]
        rfl
  have hdistW : pairsW.Pairwise
      (fun x y => ∀ p q, edgeMatches x.1 x.2.1 p q → ¬ edgeMatches y.1 y.2.1 p q) := by
    simp [pairsW]
  obtain ⟨h1, h2, h3⟩ := C2_round_trip_amended.1 expW expW2 pairsW hwfW hpairsW hdistW rfl
  have hwfM : Experiment.wf expM := ⟨fun p q => rfl, fun p q k => rfl⟩
  have hincM : ∀ q, q ∈ ([] : List OTPosition) ↔ expM.links otA q = true := by
    intro q
    simp [expM]
  obtain ⟨g1, g2, g3⟩ := C2_round_trip_amended.2 expM otA otB [] actCex hwfM
    (by decide) rfl (fun q => rfl) (fun q k => rfl) hincM rfl
  exact ⟨h2 otA otD, h3 otA otD lpKey, g1 otA, g1 otB⟩
